import Mathlib

/-!
Verification of the `Dimension` / `Library` grid-data container of
`src/spitfire/chemistry/library.py` against its natural-language
specification.

The Python module is embedded shallowly:

* numeric values held in the containers are modelled exactly (`Val := Rat`);
  the container never performs arithmetic on them, it only copies, compares
  and rearranges them, so exact values are a faithful model of the float
  payloads;
* `np.ndarray` data is modelled as a shape together with the row-major
  (C-order) flat list of entries (`NDArray`);
* Python `dict`s are modelled as insertion-ordered association lists with
  Python's update semantics (updating an existing key keeps its position);
* raising an exception is modelled with `Except PyErr` for operations whose
  partial state is irrelevant, and with an explicit `state × Option PyErr`
  result for operations where the state left behind by an exception matters
  (`remove`, `__setitem__`, the `grid` setter);
* aliasing questions (which `np.copy` calls decouple which buffers) are
  modelled in a small reference/store model at the end of the development.
-/

deriving instance DecidableEq for Except

namespace Spitfire

/-- Exact model of the numeric payload type (numpy double entries). -/
abbrev Val : Type := Rat

/-- Python exception classes raised by the module.  The spec taxonomy maps
onto them as follows: ConstructionError and ShapeMismatchError and
UnsupportedOperationError are the `ValueError`s raised at the corresponding
sites, LookupError covers `KeyError`; `LibraryIndexError` is the module's
own `IndexError` subclass. -/
inductive PyErr where
  | valueError
  | typeError
  | keyError
  | indexError
  | libraryIndexError
  | attributeError
deriving DecidableEq, Repr

/-- Model of `str.isidentifier` for ASCII strings: nonempty, first
character a letter or underscore, rest letters, digits or underscores. -/
def isPyIdent (s : String) : Bool :=
  match s.toList with
  | [] => false
  | c :: cs => (c.isAlpha || c = '_') && cs.all (fun d => d.isAlphanum || d = '_')

/-- Insertion-ordered dict update: replace the value at an existing key in
place, otherwise append the new binding (Python `d[k] = v`). -/
def dictInsert {α : Type} (m : List (String × α)) (k : String) (v : α) :
    List (String × α) :=
  match m with
  | [] => [(k, v)]
  | (k', v') :: rest => if k' = k then (k, v) :: rest else (k', v') :: dictInsert rest k v

/-- Dict lookup (`d[k]`, `none` meaning `KeyError`). -/
def lookupDict {α : Type} (m : List (String × α)) (k : String) : Option α :=
  match m with
  | [] => none
  | (k', v') :: rest => if k' = k then some v' else lookupDict rest k

/-- Dict deletion of the first binding of a key (Python `d.pop(k)` state). -/
def dictErase {α : Type} (m : List (String × α)) (k : String) :
    List (String × α) :=
  match m with
  | [] => []
  | (k', v') :: rest => if k' = k then rest else (k', v') :: dictErase rest k

/-- Product of a list of extents (the number of points of a grid shape). -/
def natProd : List Nat → Nat
  | [] => 1
  | n :: ns => n * natProd ns

/-- The list `[s, s+1, ..., s+len-1]`. -/
def rangeFromLen (s : Nat) : Nat → List Nat
  | 0 => []
  | n + 1 => s :: rangeFromLen (s + 1) n

/-- Concatenation of the images of a list-valued function. -/
def concatMap {α β : Type} (f : α → List β) : List α → List β
  | [] => []
  | a :: as => f a ++ concatMap f as

/-- Python `enumerate` starting at index `k`. -/
def enumFromN {α : Type} (k : Nat) : List α → List (Nat × α)
  | [] => []
  | a :: as => (k, a) :: enumFromN (k + 1) as

/-- Python `enumerate`. -/
def pyEnum {α : Type} (l : List α) : List (Nat × α) := enumFromN 0 l

/-- All multi-indices of a grid shape, in row-major (C) order; this is the
order in which numpy's C-contiguous buffers enumerate their entries. -/
def allIndices : List Nat → List (List Nat)
  | [] => [[]]
  | n :: ns => concatMap (fun j => (allIndices ns).map (fun js => j :: js)) (rangeFromLen 0 n)

/-- Row-major flat offset of the multi-index `js` in an array of shape `s`. -/
def flatIndex : List Nat → List Nat → Nat
  | _ :: ss, j :: js => j * natProd ss + flatIndex ss js
  | _, _ => 0

/-- Model of `np.ndarray`: a shape and the row-major flat list of entries. -/
structure NDArray where
  shape : List Nat
  data : List Val
deriving DecidableEq, Repr

/-- Entry of an array at a multi-index (row-major addressing). -/
def NDArray.atIdx (a : NDArray) (js : List Nat) : Val :=
  a.data.getD (flatIndex a.shape js) 0

/-- Model of `np.meshgrid(*vals, indexing='ij')`: the i-th output array has
shape `(len vals₀, …, len valsₙ₋₁)` and its entry at multi-index `js` is
`valsᵢ[jsᵢ]`. -/
def meshgridIJ (vals : List (List Val)) : List NDArray :=
  let shape := vals.map List.length
  (rangeFromLen 0 vals.length).map (fun i =>
    ⟨shape, (allIndices shape).map (fun js => (vals.getD i []).getD (js.getD i 0) 0)⟩)

/-- Model of `np.squeeze`: drop every length-1 axis; the row-major data is
unchanged. -/
def npSqueeze (a : NDArray) : NDArray :=
  ⟨a.shape.filter (fun n => decide (n ≠ 1)), a.data⟩

/-- Model of `np.ndarray.reshape`: succeeds exactly when the sizes agree,
reinterpreting the same row-major data. -/
def npReshape (a : NDArray) (s : List Nat) : Except PyErr NDArray :=
  if a.data.length = natProd s then .ok ⟨s, a.data⟩ else .error .valueError

/-- One component of a slice specification passed to `Library.__getitem__`:
either an integer index or a `slice(start, stop)` (step 1, the forms the
spec's slicing contract covers). -/
inductive SliceArg where
  | idx (i : Int)
  | slc (start stop : Option Int)
deriving DecidableEq, Repr

/-- Python slice-endpoint normalisation for an axis of extent `n`: negative
endpoints count from the end, and both ends clamp into `[0, n]`. -/
def normEnd (n : Nat) (v : Int) : Nat :=
  if v < 0 then (v + n).toNat else min v.toNat n

/-- The list of positions a slice component selects on an axis of extent
`n`; an out-of-range integer index is an `IndexError`. -/
def selOf (n : Nat) : SliceArg → Except PyErr (List Nat)
  | .idx i =>
    let i' : Int := if i < 0 then i + n else i
    if 0 ≤ i' && i' < (n : Int) then .ok [i'.toNat] else .error .indexError
  | .slc a b =>
    let s0 := match a with | none => 0 | some v => normEnd n v
    let s1 := match b with | none => n | some v => normEnd n v
    .ok (rangeFromLen s0 (s1 - s0))

/-- Model of basic slicing `a[args]` of an `np.ndarray` (one component per
axis): integer components select a single position and drop their axis,
slice components keep theirs; the result's row-major data enumerates the
selected positions in order. -/
def ndSlice (a : NDArray) (args : List SliceArg) : Except PyErr NDArray :=
  if a.shape.length = args.length then do
    let sels ← (a.shape.zip args).mapM (fun p => selOf p.1 p.2)
    let kept := (args.zip sels).filterMap (fun p =>
      match p.1 with
      | .slc _ _ => some p.2.length
      | .idx _ => none)
    pure ⟨kept, (allIndices (sels.map List.length)).map (fun js =>
      a.atIdx ((sels.zip js).map (fun q => q.1.getD q.2 0)))⟩
  else .error .indexError


/-- Model of `Dimension` (library.py lines 21-115): a named 1-D axis.
`grid = none` models the free state in which `self._grid is None` and the
`grid` property falls back to `values`. -/
structure Dimension where
  name : String
  values : List Val
  structured : Bool
  grid : Option NDArray
  libraryOwned : Bool
deriving DecidableEq, Repr

/-- Model of `Dimension.__init__` (lines 36-57).  `np.min` on an empty
array raises `ValueError` (line 39, before the name check); an invalid
identifier name and duplicated values of a structured dimension raise
`ValueError` (lines 46-57).  The values argument of the model is already
one-dimensional, so the line-50 rank check cannot fire. -/
def mkDimension (name : String) (values : List Val) (structured : Bool)
    (libraryOwned : Bool) : Except PyErr Dimension :=
  if values.isEmpty then .error .valueError
  else if !isPyIdent name then .error .valueError
  else if structured && !(values.dedup.length = values.length) then .error .valueError
  else .ok ⟨name, values, structured, none, false || libraryOwned⟩

/-- Model of the `Dimension.grid` read property (lines 93-102): the values
until bound into a Library, the bound meshgrid array afterwards. -/
def Dimension.gridArr (d : Dimension) : NDArray :=
  d.grid.getD ⟨[d.values.length], d.values⟩

/-- Model of the `Dimension.grid` setter (lines 104-112) as a state-plus-
exception step: a library-owned instance stores the grid, any other caller
gets `ValueError` (the spec's UnsupportedOperationError) and the instance
is left unchanged. -/
def Dimension.gridSetterRun (d : Dimension) (g : NDArray) :
    Dimension × Option PyErr :=
  if d.libraryOwned then ({ d with grid := some g }, none)
  else (d, some .valueError)

/-- Model of `Dimension._get_dict_for_file_save` (lines 114-115). -/
structure DimSave where
  name : String
  values : List Val
  structured : Bool
deriving DecidableEq, Repr

/-- Model of `Library` state: `dims_map` is the `_dims` dict (name-keyed,
insertion ordered), `props` the `_props` dict, `dims_ordering` the
`_dims_ordering` dict (position index to name), `grid_shape` the
`_grid_shape` attribute (`none` models the attribute never being set on a
zero-dimension library).  Extra attribute values are modelled as numeric
payloads; the container treats them opaquely. -/
structure Library where
  dims_map : List (String × Dimension)
  props : List (String × NDArray)
  dims_ordering : List (Nat × String)
  structured : Bool
  grid_shape : Option (List Nat)
  extra_attributes : List (String × Val)
deriving DecidableEq, Repr

/-- Binding step of `Library.__init__` (lines 160-161): assign the i-th
meshgrid array to the i-th dict entry. -/
def bindGrids (m : List (String × Dimension)) (gs : List NDArray) :
    List (String × Dimension) :=
  (m.zip gs).map (fun p => (p.1.1, { p.1.2 with grid := some p.2 }))

/-- Model of `Library.__init__` (lines 143-177).

Line 144 rebuilds every incoming dimension as a library-owned private copy
and keys the `_dims` dict by name (a duplicate name overwrites the earlier
copy in place).  Lines 150-154 demand homogeneity of the structured flags
over the dict.  For a non-empty structured argument list, lines 156-161
derive the `np.meshgrid(..., indexing='ij')` grid over the dict's values
and bind each private copy's grid.  For a non-empty unstructured argument
list, line 163 evaluates `next(self._dims.keys())`, which raises
`TypeError` (a `dict_keys` view is not an iterator), so the intended
shape-consistency `ValueError`s of lines 165-169 are unreachable.  The
dynamically `setattr`-generated per-dimension accessors (lines 171-175)
merely re-expose the fields modelled here.  An empty argument list leaves
`_grid_shape` unset (`none`). -/
def Library.init (dimensions : List Dimension) : Except PyErr Library := do
  let dimsMap ← dimensions.foldlM (fun m d => do
      let d' ← mkDimension d.name d.values d.structured true
      pure (dictInsert m d.name d')) ([] : List (String × Dimension))
  let ordering := pyEnum (dimensions.map Dimension.name)
  let structured := dimsMap.all (fun p => p.2.structured)
  let unstructured := dimsMap.all (fun p => !p.2.structured)
  if !structured && !unstructured then
    .error .valueError
  else if dimensions.length ≠ 0 then
    if structured then
      let mg := meshgridIJ (dimsMap.map (fun p => p.2.values))
      let gshape := (mg.headD ⟨[], []⟩).shape
      pure { dims_map := bindGrids dimsMap mg, props := []
             dims_ordering := ordering, structured := structured
             grid_shape := some gshape, extra_attributes := [] }
    else
      .error .typeError
  else
    pure { dims_map := dimsMap, props := [], dims_ordering := ordering
           structured := structured, grid_shape := none, extra_attributes := [] }

/-- Model of the `Library.dims` property (lines 394-400): the Dimension
objects listed in ordering-index order, each looked up by name in `_dims`. -/
def Library.dims (L : Library) : List Dimension :=
  L.dims_ordering.filterMap (fun p => lookupDict L.dims_map p.2)

/-- Model of the `Library.shape` property (lines 385-387):
`self.dims[0].grid.shape`; `none` models the `IndexError` raised on a
library with no dimensions. -/
def Library.shapeOf (L : Library) : Option (List Nat) :=
  match L.dims with
  | [] => none
  | d :: _ => some d.gridArr.shape

/-- Model of `Library.__setitem__` (lines 328-334) as state plus exception:
a shape mismatch raises `ValueError` (the spec's ShapeMismatchError) before
any mutation; otherwise a private copy of the array is stored under the
name, silently overwriting an existing binding.  A library whose
`_grid_shape` attribute was never set (zero dimensions) raises
`AttributeError` on the comparison. -/
def Library.setItemRun (L : Library) (quantity : String) (values : NDArray) :
    Library × Option PyErr :=
  match L.grid_shape with
  | none => (L, some .attributeError)
  | some gs =>
    if values.shape ≠ gs then (L, some .valueError)
    else ({ L with props := dictInsert L.props quantity values }, none)

/-- The `Except` view of `Library.__setitem__` for use inside composite
operations. -/
def Library.setItem (L : Library) (quantity : String) (values : NDArray) :
    Except PyErr Library :=
  match L.setItemRun quantity values with
  | (L', none) => .ok L'
  | (_, some e) => .error e

/-- Model of `Library.remove` (lines 411-414) as state plus exception: pop
the named properties one at a time; a missing name raises `KeyError`
(a `LookupError`) at that point, leaving the earlier removals in place. -/
def Library.removeRun (L : Library) : List String → Library × Option PyErr
  | [] => (L, none)
  | q :: rest =>
    match lookupDict L.props q with
    | none => (L, some .keyError)
    | some _ => Library.removeRun { L with props := dictErase L.props q } rest

/-- Model of `lib.extra_attributes[k] = v` (dict update through the
`extra_attributes` property, lines 179-185). -/
def Library.addExtra (L : Library) (k : String) (v : Val) : Library :=
  { L with extra_attributes := dictInsert L.extra_attributes k v }

/-- Model of `Library.__getstate__` (lines 187-191): the pickled capture of
a library - per-name dimension definitions, the ordering table, the
property mapping and the extra attributes.  `extra_attributes` is optional
because legacy (v1.0) plain-mapping blobs may lack the key, which
`__setstate__` tolerates (line 202). -/
structure SaveState where
  dimensions : List (String × DimSave)
  dim_ordering : List (Nat × String)
  properties : List (String × NDArray)
  extra_attributes : Option (List (String × Val))
deriving DecidableEq, Repr

def Library.getstate (L : Library) : SaveState :=
  { dimensions := L.dims_map.map (fun p => (p.1, ⟨p.2.name, p.2.values, p.2.structured⟩))
    dim_ordering := L.dims_ordering
    properties := L.props
    extra_attributes := some L.extra_attributes }

/-- The per-slot extraction `__init__` effectively performs on the rebuilt
dimension list: an unfilled slot (`None`) surfaces as `AttributeError` when
its `.name` is read. -/
def extractDim (o : Option Dimension) : Except PyErr Dimension :=
  match o with
  | some d => Except.ok d
  | none => Except.error PyErr.attributeError

/-- One iteration of the slot-filling loop of `__setstate__` (lines
195-198): look the name up in the pickled dimension definitions (a missing
name is a `KeyError`), rebuild the free Dimension, and store it at the
slot index (an index beyond the slot list is an `IndexError`). -/
def setstateStep (dimensions : List (String × DimSave))
    (arr : List (Option Dimension)) (p : Nat × String) :
    Except PyErr (List (Option Dimension)) :=
  match lookupDict dimensions p.2 with
  | none => .error PyErr.keyError
  | some ds => do
    let d ← mkDimension ds.name ds.values ds.structured false
    if p.1 < arr.length then pure (arr.set p.1 (some d))
    else .error PyErr.indexError

/-- Model of `Library.__setstate__` (lines 193-204): allocate a slot list
of length `len(dimensions)`, fill slot `index` with a rebuilt free
Dimension for every `(index, name)` of the ordering table, run `__init__`
on the ordered dimensions, replay every property assignment and then every
extra attribute. -/
def Library.setstate (st : SaveState) : Except PyErr Library := do
  let slots ← st.dim_ordering.foldlM (setstateStep st.dimensions)
    (List.replicate st.dimensions.length (none : Option Dimension))
  let ordered ← slots.mapM extractDim
  let L0 ← Library.init ordered
  let L1 ← st.properties.foldlM (fun acc p => acc.setItem p.1 p.2) L0
  let ea := st.extra_attributes.getD []
  pure (ea.foldl (fun acc p => acc.addExtra p.1 p.2) L1)

/-- What `pickle.load` hands to `Library.load_from_file` (lines 264-275):
either an unpickled `Library` object - which pickle reconstructs through
`__getstate__` / `__setstate__` - or a legacy v1.0 blob that is a plain
mapping. -/
inductive PickleBlob where
  | lib (st : SaveState)
  | legacyDict (st : SaveState)
deriving DecidableEq, Repr

/-- Model of `Library.save_to_file` (lines 206-209): pickling the library
records its `__getstate__` capture. -/
def Library.save (L : Library) : PickleBlob := .lib L.getstate

/-- Model of `Library.load_from_file` (lines 264-275): a plain mapping is
fed to `__setstate__` of a fresh `Library()` (lines 270-273); an unpickled
`Library` object was itself rebuilt by pickle through `__setstate__`
(line 275). -/
def Library.load_from_file : PickleBlob → Except PyErr Library
  | .legacyDict st => Library.setstate st
  | .lib st => Library.setstate st

/-- Model of `Library.__copy__` (lines 277-285): rebuild free dimensions
from the same value content, reconstruct through `__init__`, replay every
property assignment.  The extra attributes are not carried over. -/
def Library.copyV (L : Library) : Except PyErr Library := do
  let newDims ← L.dims.mapM (fun d => mkDimension d.name d.values d.structured false)
  let L0 ← Library.init newDims
  L.props.foldlM (fun acc p => acc.setItem p.1 p.2) L0

/-- Model of `Library.__deepcopy__` (lines 287-295): same rebuild as
`__copy__`, with `np.copy` forced on each values array and each property
array; on the value level the copies are content-identical, so the
value-level function coincides with `copyV` (buffer identity is treated in
the store model below).  The extra attributes are not carried over. -/
def Library.deepcopyV (L : Library) : Except PyErr Library := do
  let newDims ← L.dims.mapM (fun d => mkDimension d.name d.values d.structured false)
  let L0 ← Library.init newDims
  L.props.foldlM (fun acc p => acc.setItem p.1 p.2) L0

/-- Result type of `Library.squeeze` (lines 307-326): a new library, or -
when every dimension is removed - the record of two scalar mappings the
code returns instead.  The field names follow the keys of the returned
dict. -/
inductive SqueezeResult where
  | lib (L : Library)
  | scalars (dimensions : List (String × NDArray)) (properties : List (String × NDArray))
deriving DecidableEq, Repr

/-- Model of `Library.squeeze` (lines 307-326): keep only dimensions with
more than one value; if none remain, return the scalar-mapping record - in
which (lines 320-321) the code stores the squeezed PROPERTY arrays under
the `'dimensions'` key and the squeezed dimension VALUES under the
`'properties'` key; otherwise rebuild a library over the kept dimensions
and store every property squeezed. -/
def Library.squeeze (library : Library) : Except PyErr SqueezeResult := do
  let newDims ← (library.dims.filter (fun d => 1 < d.values.length)).mapM
    (fun d => mkDimension d.name d.values d.structured false)
  if newDims.isEmpty then
    pure (SqueezeResult.scalars
      (library.props.map (fun p => (p.1, npSqueeze p.2)))
      (library.dims.map (fun d => (d.name, npSqueeze ⟨[d.values.length], d.values⟩))))
  else do
    let L0 ← Library.init newDims
    let L1 ← library.props.foldlM (fun acc p => acc.setItem p.1 (npSqueeze p.2)) L0
    pure (SqueezeResult.lib L1)

/-- The new values array of one dimension in `Library.__getitem__`
(lines 357-361): apply the slice component to the 1-D values; a scalar
result (an integer component) is wrapped back into a length-1 array by
line 359, so both cases enumerate the selected positions. -/
def applySliceValues (xs : List Val) (arg : SliceArg) :
    Except PyErr (List Val) := do
  let sel ← selOf xs.length arg
  pure (sel.map (fun j => xs.getD j 0))

/-- Model of the slicing branch of `Library.__getitem__` (lines 348-365):
an unstructured library refuses with `LibraryIndexError` (line 350), as
does a spec whose length differs from the dimension count (lines 352-355);
otherwise each dimension is sliced (scalars rewrapped), a new library is
constructed from the sliced dimensions, and every property array is sliced
and reshaped onto the new grid.  A zero-dimension library raises
`IndexError` at `self.dims[0]` (line 349). -/
def Library.getitemSlice (L : Library) (args : List SliceArg) :
    Except PyErr Library :=
  if L.dims.isEmpty then .error PyErr.indexError
  else if !(L.dims.headD ⟨"", [], true, none, false⟩).structured then
    .error PyErr.libraryIndexError
  else if args.length ≠ L.dims.length then .error PyErr.libraryIndexError
  else do
    let newDims ← (L.dims.zip args).mapM (fun p => do
      let vs ← applySliceValues p.1.values p.2
      mkDimension p.1.name vs p.1.structured false)
    let newLib ← Library.init newDims
    L.props.foldlM (fun acc p => do
        let sliced ← ndSlice p.2 args
        let target := (newLib.dims.headD ⟨"", [], true, none, false⟩).gridArr.shape
        let reshaped ← npReshape sliced target
        acc.setItem p.1 reshaped) newLib

/-- The conditions under which `Dimension.__init__` succeeds (and hence
under which a free-standing `Dimension` value can exist at all). -/
def Dimension.ctorOKb (d : Dimension) : Bool :=
  !d.values.isEmpty && isPyIdent d.name &&
    (!d.structured || decide d.values.Nodup)

/-- Wellformedness of a structured `Library` value, as the spec's data
model states it: at least one dimension, pairwise-distinct dimension names,
the ordering table enumerating exactly the `_dims` keys, every private
dimension copy constructible, structured and library-owned, the cached
grid shape matching the dimension lengths, and uniquely-named,
grid-shaped property arrays and uniquely-named extra attributes. -/
def Library.wf (L : Library) : Bool :=
  !L.dims_map.isEmpty &&
  decide ((L.dims_map.map Prod.fst).Nodup) &&
  decide (L.dims_ordering = pyEnum (L.dims_map.map Prod.fst)) &&
  L.dims_map.all (fun p =>
    decide (p.1 = p.2.name) && p.2.ctorOKb && p.2.structured && p.2.libraryOwned) &&
  decide (L.grid_shape = some (L.dims_map.map (fun p => p.2.values.length))) &&
  L.structured &&
  decide ((L.props.map Prod.fst).Nodup) &&
  L.props.all (fun p =>
    decide (p.2.shape = L.dims_map.map (fun q => q.2.values.length)) &&
      p.2.data.length = natProd p.2.shape) &&
  decide ((L.extra_attributes.map Prod.fst).Nodup)

/-- Equivalence of two libraries in the sense of the save/load and copy
contracts: same dimension names in the same order, same dimension values,
same property mapping, same extra attributes. -/
def Library.equiv (L1 L2 : Library) : Prop :=
  L1.dims.map Dimension.name = L2.dims.map Dimension.name ∧
  L1.dims.map Dimension.values = L2.dims.map Dimension.values ∧
  L1.props = L2.props ∧
  L1.extra_attributes = L2.extra_attributes

/-- The dimension at position `i` of a library, with a dummy fallback. -/
def Library.dimAt (L : Library) (i : Nat) : Dimension :=
  L.dims.getD i ⟨"", [], true, none, false⟩

/-- The structured-grid invariant: every incorporated dimension carries a
bound grid whose shape is the library's grid shape, and the entry of
dimension `i`'s grid at multi-index `js` is `valuesᵢ[jsᵢ]`. -/
def Library.gridInvariant (L : Library) : Prop :=
  ∀ i, i < L.dims.length →
    ∃ g : NDArray,
      (L.dimAt i).grid = some g ∧
      L.grid_shape = some g.shape ∧
      ∀ js : List Nat, js.length = L.dims.length →
        (∀ k, k < L.dims.length → js.getD k 0 < (L.dimAt k).values.length) →
        g.atIdx js = (L.dimAt i).values.getD (js.getD i 0) 0

/-! ### Store model of array buffers

For the aliasing half of the deep-copy contract the value model is not
enough: it cannot distinguish two names for one buffer from two equal
buffers.  The store model makes every `np.ndarray` buffer of dimension
values an index into a growing store, and `np.copy` an allocation. -/

/-- A heap of 1-D numeric buffers; a reference is an index into it. -/
abbrev Store : Type := List (List Val)

/-- Contents of the buffer behind a reference. -/
def Store.read (st : Store) (r : Nat) : List Val := st.getD r []

/-- Allocate a fresh buffer (the model of `np.copy` output placement). -/
def Store.alloc (st : Store) (a : List Val) : Store × Nat :=
  (st ++ [a], st.length)

/-- In-place mutation of the buffer behind a reference (the model of
`arr[...] = ...` on a live numpy array). -/
def Store.write (st : Store) (r : Nat) (a : List Val) : Store :=
  st.set r a

/-- Model of `np.copy` on a referenced buffer: allocate a fresh buffer
with the same contents. -/
def npCopyRef (st : Store) (r : Nat) : Store × Nat :=
  st.alloc (st.read r)

/-- A `Dimension` in the store model: the values field is a reference. -/
structure DimensionRef where
  name : String
  values : Nat
  structured : Bool
deriving DecidableEq, Repr

/-- Store model of `Dimension.__init__` line 38
(`self._values = np.copy(values)`). -/
def mkDimensionRef (st : Store) (name : String) (valuesRef : Nat)
    (structured : Bool) : Store × DimensionRef :=
  let p := npCopyRef st valuesRef
  (p.1, ⟨name, p.2, structured⟩)

/-- Store model of the first loop of `Library.__deepcopy__`
(lines 288-291): per source dimension, `np.copy(d.values)` followed by the
`Dimension` constructor's own copy. -/
def deepcopyPassA (st : Store) : List DimensionRef → Store × List DimensionRef
  | [] => (st, [])
  | d :: rest =>
    let c := npCopyRef st d.values
    let m := mkDimensionRef c.1 d.name c.2 d.structured
    let q := deepcopyPassA m.1 rest
    (q.1, m.2 :: q.2)

/-- Store model of `Library.__init__` line 144: the library re-constructs
every dimension it is given, copying its values buffer once more. -/
def libraryInitRefDims (st : Store) : List DimensionRef → Store × List DimensionRef
  | [] => (st, [])
  | d :: rest =>
    let m := mkDimensionRef st d.name d.values d.structured
    let q := libraryInitRefDims m.1 rest
    (q.1, m.2 :: q.2)

/-- Store model of the dimension flow of `Library.__deepcopy__`
(lines 287-292): the copy loop followed by the constructor's re-copy. -/
def deepcopyRef (st : Store) (dims : List DimensionRef) :
    Store × List DimensionRef :=
  let a := deepcopyPassA st dims
  libraryInitRefDims a.1 a.2

/-! ### Generic helper lemmas -/

theorem exceptBind_ok {ε α β : Type} {x : Except ε α} {f : α → Except ε β}
    {b : β} (h : x >>= f = .ok b) : ∃ a, x = .ok a ∧ f a = .ok b := by
  cases x with
  | ok a => exact ⟨a, rfl, h⟩
  | error e => simp [Bind.bind, Except.bind] at h

theorem mapM_ok_of_forall {α β : Type} {f : α → Except PyErr β} {g : α → β} :
    ∀ {l : List α}, (∀ a ∈ l, f a = .ok (g a)) → l.mapM f = .ok (l.map g) := by
  intro l
  induction l with
  | nil => intro _; rfl
  | cons a as ih =>
    intro h
    rw [List.mapM_cons, h a (by simp), ih (fun x hx => h x (by simp [hx]))]
    rfl

theorem rangeFromLen_length (s n : Nat) : (rangeFromLen s n).length = n := by
  induction n generalizing s with
  | zero => rfl
  | succ m ih => simp [rangeFromLen, ih]

theorem mem_rangeFromLen {j s n : Nat} (h : j ∈ rangeFromLen s n) :
    s ≤ j ∧ j < s + n := by
  induction n generalizing s with
  | zero => simp [rangeFromLen] at h
  | succ m ih =>
    simp only [rangeFromLen, List.mem_cons] at h
    rcases h with h | h
    · omega
    · have := ih h
      omega

theorem rangeFromLen_nodup (s n : Nat) : (rangeFromLen s n).Nodup := by
  induction n generalizing s with
  | zero => exact List.nodup_nil
  | succ m ih =>
    refine List.nodup_cons.mpr ⟨?_, ih (s + 1)⟩
    intro hmem
    have := mem_rangeFromLen hmem
    omega

theorem rangeFromLen_getElem? {s n i : Nat} (h : i < n) :
    (rangeFromLen s n)[i]? = some (s + i) := by
  induction n generalizing s i with
  | zero => omega
  | succ m ih =>
    cases i with
    | zero => simp [rangeFromLen]
    | succ j =>
      have : j < m := by omega
      simp only [rangeFromLen, List.getElem?_cons_succ, ih this]
      congr 1
      omega

theorem concatMap_length_constant {α β : Type} (f : α → List β) (k : Nat) :
    ∀ (l : List α), (∀ a ∈ l, (f a).length = k) →
      (concatMap f l).length = l.length * k := by
  intro l
  induction l with
  | nil => intro _; simp [concatMap]
  | cons a as ih =>
    intro h
    simp only [concatMap, List.length_append, h a (by simp),
      ih (fun x hx => h x (by simp [hx])), List.length_cons]
    ring

theorem concatMap_getElem_constant {α β : Type} (f : α → List β) (k : Nat) :
    ∀ (l : List α) (i r : Nat), (∀ a ∈ l, (f a).length = k) →
      (hi : i < l.length) → r < k →
      (concatMap f l)[i * k + r]? = (f (l.get ⟨i, hi⟩))[r]? := by
  intro l
  induction l with
  | nil => intro i r _ hi _; simp at hi
  | cons a as ih =>
    intro i r h hi hr
    cases i with
    | zero =>
      simp only [concatMap, Nat.zero_mul, Nat.zero_add, List.get]
      rw [List.getElem?_append]
      have : r < (f a).length := by rw [h a (by simp)]; exact hr
      simp [this]
    | succ j =>
      have hj : j < as.length := by simpa using hi
      simp only [concatMap, List.get]
      rw [List.getElem?_append]
      have hlen : (f a).length = k := h a (by simp)
      have hge : ¬ ((j + 1) * k + r < (f a).length) := by
        rw [hlen]
        have : k ≤ (j + 1) * k := by
          calc k = 1 * k := (Nat.one_mul k).symm
          _ ≤ (j + 1) * k := Nat.mul_le_mul_right k (by omega)
        omega
      rw [if_neg hge, hlen]
      have harith : (j + 1) * k + r - k = j * k + r := by
        have : (j + 1) * k = j * k + k := by ring
        omega
      rw [harith]
      exact ih j r (fun x hx => h x (by simp [hx])) hj hr

theorem allIndices_length : ∀ (s : List Nat),
    (allIndices s).length = natProd s := by
  intro s
  induction s with
  | nil => rfl
  | cons n ns ih =>
    simp only [allIndices, natProd]
    rw [concatMap_length_constant _ (natProd ns) _
      (fun a _ => by simp [List.length_map, ih]), rangeFromLen_length]

theorem flatIndex_lt : ∀ {s js : List Nat}, List.Forall₂ (fun j n => j < n) js s →
    flatIndex s js < natProd s := by
  intro s
  induction s with
  | nil => intro js h; cases h; simp [flatIndex, natProd]
  | cons n ns ih =>
    intro js h
    cases h with
    | cons hj hrest =>
      rename_i j js'
      simp only [flatIndex, natProd]
      have h1 : flatIndex ns js' < natProd ns := ih hrest
      have h2 : j * natProd ns + natProd ns ≤ n * natProd ns := by
        have : j + 1 ≤ n := hj
        calc j * natProd ns + natProd ns = (j + 1) * natProd ns := by ring
        _ ≤ n * natProd ns := Nat.mul_le_mul_right _ this
      omega

theorem allIndices_getElem? : ∀ {s js : List Nat},
    List.Forall₂ (fun j n => j < n) js s →
    (allIndices s)[flatIndex s js]? = some js := by
  intro s
  induction s with
  | nil => intro js h; cases h; rfl
  | cons n ns ih =>
    intro js h
    cases h with
    | cons hj hrest =>
      rename_i j js'
      simp only [allIndices, flatIndex]
      have hlen : ∀ a ∈ rangeFromLen 0 n,
          ((allIndices ns).map (fun ks => a :: ks)).length = natProd ns := by
        intro a _
        simp [List.length_map, allIndices_length]
      have hjlt : j < (rangeFromLen 0 n).length := by
        rw [rangeFromLen_length]; exact hj
      rw [concatMap_getElem_constant _ (natProd ns) _ j (flatIndex ns js') hlen hjlt
        (flatIndex_lt hrest)]
      have hgetj : (rangeFromLen 0 n).get ⟨j, hjlt⟩ = j := by
        have := rangeFromLen_getElem? (s := 0) hj
        have h2 : (rangeFromLen 0 n)[j]? = some ((rangeFromLen 0 n).get ⟨j, hjlt⟩) := by
          rw [List.getElem?_eq_getElem hjlt]
          rfl
        rw [h2] at this
        exact (by simpa using this.symm : j = (rangeFromLen 0 n).get ⟨j, hjlt⟩).symm
      rw [hgetj, List.getElem?_map, ih hrest]
      rfl

theorem meshgridIJ_length (vals : List (List Val)) :
    (meshgridIJ vals).length = vals.length := by
  simp [meshgridIJ, rangeFromLen_length]

theorem meshgridIJ_getElem? {vals : List (List Val)} {i : Nat}
    (hi : i < vals.length) :
    (meshgridIJ vals)[i]? = some
      ⟨vals.map List.length, (allIndices (vals.map List.length)).map
        (fun js => (vals.getD i []).getD (js.getD i 0) 0)⟩ := by
  simp only [meshgridIJ, List.getElem?_map]
  rw [rangeFromLen_getElem? hi]
  simp

theorem meshgridIJ_shape {vals : List (List Val)} {g : NDArray}
    (h : g ∈ meshgridIJ vals) : g.shape = vals.map List.length := by
  simp only [meshgridIJ, List.mem_map] at h
  obtain ⟨i, _, rfl⟩ := h
  rfl

theorem meshgridIJ_headD_shape {vals : List (List Val)} (h : vals ≠ []) :
    ((meshgridIJ vals).headD ⟨[], []⟩).shape = vals.map List.length := by
  cases hv : meshgridIJ vals with
  | nil =>
    have := meshgridIJ_length vals
    rw [hv] at this
    simp at this
    exact absurd this.symm (by simpa using h)
  | cons g gs =>
    have hg : g ∈ meshgridIJ vals := by rw [hv]; simp
    simpa using meshgridIJ_shape hg

theorem meshgridIJ_entry {vals : List (List Val)} {i : Nat} {js : List Nat}
    (hi : i < vals.length)
    (hjs : List.Forall₂ (fun j n => j < n) js (vals.map List.length)) :
    ((meshgridIJ vals).getD i ⟨[], []⟩).atIdx js
      = (vals.getD i []).getD (js.getD i 0) 0 := by
  rw [List.getD_eq_getElem?_getD, meshgridIJ_getElem? hi]
  simp only [Option.getD_some, NDArray.atIdx]
  rw [List.getD_eq_getElem?_getD, List.getElem?_map, allIndices_getElem? hjs]
  rfl

theorem lookupDict_cons_self {α : Type} (k : String) (v : α)
    (rest : List (String × α)) : lookupDict ((k, v) :: rest) k = some v := by
  simp [lookupDict]

theorem lookupDict_cons_ne {α : Type} {k q : String} (v : α)
    (rest : List (String × α)) (h : k ≠ q) :
    lookupDict ((k, v) :: rest) q = lookupDict rest q := by
  simp [lookupDict, h]

theorem dictInsert_fresh {α : Type} {k : String} (v : α) :
    ∀ {m : List (String × α)}, k ∉ m.map Prod.fst →
      dictInsert m k v = m ++ [(k, v)] := by
  intro m
  induction m with
  | nil => intro _; rfl
  | cons p rest ih =>
    intro h
    have h1 : p.1 ≠ k := by
      intro he
      exact h (by simp [he.symm])
    have h2 : k ∉ rest.map Prod.fst := fun hm => h (by simp [hm])
    cases p with
    | mk k' v' =>
      simp only [dictInsert, if_neg h1, List.cons_append, List.cons.injEq, true_and]
      exact ih h2

theorem filterMap_congr_mem {α β : Type} {f g : α → Option β} :
    ∀ {l : List α}, (∀ a ∈ l, f a = g a) → l.filterMap f = l.filterMap g := by
  intro l
  induction l with
  | nil => intro _; rfl
  | cons a as ih =>
    intro h
    simp only [List.filterMap_cons, h a (by simp)]
    rw [ih (fun x hx => h x (by simp [hx]))]

theorem enumFromN_filterMap_snd {α β : Type} (f : α → Option β) :
    ∀ (l : List α) (k : Nat),
      (enumFromN k l).filterMap (fun p => f p.2) = l.filterMap f := by
  intro l
  induction l with
  | nil => intro _; rfl
  | cons a as ih =>
    intro k
    simp only [enumFromN, List.filterMap_cons]
    cases f a <;> simp [ih]

theorem lookupSelf_of_nodup {α : Type} :
    ∀ {ps : List (String × α)}, (ps.map Prod.fst).Nodup →
      (ps.map Prod.fst).filterMap (fun n => lookupDict ps n) = ps.map Prod.snd := by
  intro ps
  induction ps with
  | nil => intro _; rfl
  | cons p rest ih =>
    intro h
    cases p with
    | mk k v =>
      simp only [List.map_cons, List.filterMap_cons] at h ⊢
      rw [lookupDict_cons_self]
      have hk : k ∉ rest.map Prod.fst := (List.nodup_cons.mp h).1
      have hrest : (rest.map Prod.fst).Nodup := (List.nodup_cons.mp h).2
      have : (rest.map Prod.fst).filterMap (fun n => lookupDict ((k, v) :: rest) n)
          = (rest.map Prod.fst).filterMap (fun n => lookupDict rest n) := by
        refine filterMap_congr_mem ?_
        intro n hn
        exact lookupDict_cons_ne v rest (fun he => hk (he ▸ hn))
      rw [this, ih hrest]

theorem zip_map_left {α β γ : Type} (f : α → γ) :
    ∀ (l : List α) (r : List β),
      (l.map f).zip r = (l.zip r).map (fun p => (f p.1, p.2)) := by
  intro l
  induction l with
  | nil => intro r; rfl
  | cons a as ih =>
    intro r
    cases r with
    | nil => rfl
    | cons b bs => simp [ih]

theorem zip_map_fst_eq {α β : Type} :
    ∀ (l : List α) (r : List β), l.length = r.length →
      (l.zip r).map (fun p => p.1) = l := by
  intro l
  induction l with
  | nil => intro r _; rfl
  | cons a as ih =>
    intro r h
    cases r with
    | nil => simp at h
    | cons b bs =>
      simp only [List.zip_cons_cons, List.map_cons, List.cons.injEq, true_and]
      exact ih bs (by simpa using h)

theorem zip_length_eq {α β : Type} (l : List α) (r : List β)
    (h : l.length = r.length) : (l.zip r).length = l.length := by
  simp [List.length_zip, h]

theorem set_append_length {α : Type} :
    ∀ (done : List α) (x a : α) (tail : List α),
      (done ++ x :: tail).set done.length a = done ++ a :: tail := by
  intro done
  induction done with
  | nil => intro x a tail; rfl
  | cons d ds ih => intro x a tail; simp [List.set, ih]

theorem mapM_extract_some (l : List Dimension) :
    (l.map (fun d => some d)).mapM extractDim = .ok l := by
  induction l with
  | nil => rfl
  | cons d ds ih =>
    simp only [List.map_cons]
    rw [List.mapM_cons, ih]
    rfl

theorem forall₂_lt_of_getD {js ns : List Nat} (hlen : js.length = ns.length)
    (h : ∀ k, k < ns.length → js.getD k 0 < ns.getD k 0) :
    List.Forall₂ (fun j n => j < n) js ns := by
  induction ns generalizing js with
  | nil =>
    cases js with
    | nil => exact List.Forall₂.nil
    | cons _ _ => simp at hlen
  | cons n ns' ih =>
    cases js with
    | nil => simp at hlen
    | cons j js' =>
      refine List.Forall₂.cons (h 0 (by simp)) ?_
      refine ih (by simpa using hlen) ?_
      intro k hk
      exact h (k + 1) (by simpa using hk)

theorem getD_set_ne {α : Type} (x : α) :
    ∀ (l : List α) (i j : Nat) (a : α), i ≠ j →
      (l.set j a).getD i x = l.getD i x := by
  intro l
  induction l with
  | nil => intro i j a _; simp [List.set]
  | cons b bs ih =>
    intro i j a hne
    cases j with
    | zero =>
      cases i with
      | zero => exact absurd rfl hne
      | succ i' => simp [List.set]
    | succ j' =>
      cases i with
      | zero => simp [List.set]
      | succ i' =>
        simp only [List.set, List.getD_cons_succ]
        exact ih i' j' a (fun he => hne (by rw [he]))

theorem getD_append_lt {α : Type} (x : α) :
    ∀ (l₁ l₂ : List α) (i : Nat), i < l₁.length →
      (l₁ ++ l₂).getD i x = l₁.getD i x := by
  intro l₁
  induction l₁ with
  | nil => intro l₂ i h; simp at h
  | cons a as ih =>
    intro l₂ i h
    cases i with
    | zero => rfl
    | succ i' =>
      simp only [List.cons_append, List.getD_cons_succ]
      exact ih l₂ i' (by simpa using h)

theorem getD_append_self {α : Type} (x a : α) (l₁ l₂ : List α) :
    (l₁ ++ a :: l₂).getD l₁.length x = a := by
  induction l₁ with
  | nil => rfl
  | cons b bs ih => simpa using ih

/-! ### Characterisation of `Library.__init__` on wellformed input -/

/-- The private copy `Library.__init__` makes of a dimension before grid
binding (line 144). -/
def rawOwned (d : Dimension) : Dimension :=
  ⟨d.name, d.values, d.structured, none, true⟩

/-- A private copy with its grid bound (lines 160-161). -/
def boundDim (d : Dimension) (g : NDArray) : Dimension :=
  ⟨d.name, d.values, d.structured, some g, true⟩

/-- A free reconstruction of a dimension (constructor calls outside the
library, `_library_owned=False`). -/
def freeDim (d : Dimension) : Dimension :=
  ⟨d.name, d.values, d.structured, none, false⟩

theorem mkDimension_ok {d : Dimension} (owned : Bool) (h : d.ctorOKb = true) :
    mkDimension d.name d.values d.structured owned
      = .ok ⟨d.name, d.values, d.structured, none, owned⟩ := by
  have h1 : d.values.isEmpty = false := by
    simp only [Dimension.ctorOKb, Bool.and_eq_true, Bool.not_eq_eq_eq_not,
      Bool.not_true] at h
    exact h.1.1
  have h2 : isPyIdent d.name = true := by
    simp only [Dimension.ctorOKb, Bool.and_eq_true] at h
    exact h.1.2
  have h3 : ¬ (d.structured && !(d.values.dedup.length = d.values.length)) = true := by
    simp only [Dimension.ctorOKb, Bool.and_eq_true, Bool.or_eq_true,
      Bool.not_eq_eq_eq_not, Bool.not_true, decide_eq_true_eq] at h
    rcases h.2 with hs | hn
    · simp [hs]
    · simp [List.dedup_eq_self.mpr hn]
  simp only [mkDimension, h1, Bool.false_eq_true, if_false, h2, Bool.not_true,
    if_neg, Bool.false_or]
  rw [if_neg (by simpa using h3)]

/-- The result library of `Library.__init__` on a non-empty list of
wellformed structured dimensions with pairwise-distinct names. -/
def initResult (ds : List Dimension) : Library :=
  { dims_map := (ds.zip (meshgridIJ (ds.map Dimension.values))).map
      (fun p => (p.1.name, boundDim p.1 p.2))
    props := []
    dims_ordering := pyEnum (ds.map Dimension.name)
    structured := true
    grid_shape := some (ds.map (fun d => d.values.length))
    extra_attributes := [] }

theorem initFold_char :
    ∀ (ds : List Dimension) (acc : List (String × Dimension)),
      (∀ d ∈ ds, d.ctorOKb = true) →
      ((acc.map Prod.fst ++ ds.map Dimension.name)).Nodup →
      ds.foldlM (fun m d => do
        let d' ← mkDimension d.name d.values d.structured true
        pure (dictInsert m d.name d')) acc
      = .ok (acc ++ ds.map (fun d => (d.name, rawOwned d))) := by
  intro ds
  induction ds with
  | nil =>
    intro acc _ _
    simp only [List.foldlM_nil, List.map_nil, List.append_nil]
    rfl
  | cons d rest ih =>
    intro acc hok hnd
    rw [List.foldlM_cons, mkDimension_ok true (hok d (by simp))]
    have hfresh : d.name ∉ acc.map Prod.fst := by
      intro hmem
      have : d.name ∈ acc.map Prod.fst ++ (d :: rest).map Dimension.name := by
        simp [hmem]
      have hd : (acc.map Prod.fst ++ (d :: rest).map Dimension.name).Nodup := hnd
      rw [List.map_cons] at hd
      have := (List.nodup_append.mp hd).2.2
      exact this hmem (by simp)
    show (pure (dictInsert acc d.name (rawOwned d)) : Except PyErr _) >>= _ = _
    rw [pure_bind, dictInsert_fresh (rawOwned d) hfresh]
    have hnd' : ((acc ++ [(d.name, rawOwned d)]).map Prod.fst
        ++ rest.map Dimension.name).Nodup := by
      simp only [List.map_append, List.map_cons] at hnd ⊢
      simpa [List.append_assoc] using hnd
    rw [ih (acc ++ [(d.name, rawOwned d)]) (fun x hx => hok x (by simp [hx])) hnd']
    simp

theorem init_char (ds : List Dimension) (h1 : ds ≠ [])
    (h2 : (ds.map Dimension.name).Nodup)
    (h3 : ∀ d ∈ ds, d.ctorOKb = true ∧ d.structured = true) :
    Library.init ds = .ok (initResult ds) := by
  have hfold := initFold_char ds [] (fun d hd => (h3 d hd).1) (by simpa using h2)
  simp only [Library.init]
  rw [hfold]
  show (pure (([] : List (String × Dimension)) ++ _) : Except PyErr _) >>= _ = _
  rw [pure_bind]
  simp only [List.nil_append]
  have hstruct : (ds.map (fun d => (d.name, rawOwned d))).all
      (fun p => p.2.structured) = true := by
    rw [List.all_eq_true]
    intro p hp
    rw [List.mem_map] at hp
    obtain ⟨d, hd, rfl⟩ := hp
    exact (h3 d hd).2
  rw [hstruct]
  simp only [Bool.not_true, Bool.false_and, Bool.false_eq_true, if_false]
  have hne : ds.length ≠ 0 := by
    cases ds with
    | nil => exact absurd rfl h1
    | cons _ _ => simp
  rw [if_pos hne]
  have hvals : (ds.map (fun d => (d.name, rawOwned d))).map (fun p => p.2.values)
      = ds.map Dimension.values := by
    simp [List.map_map, Function.comp, rawOwned]
  rw [hvals]
  have hshape : ((meshgridIJ (ds.map Dimension.values)).headD ⟨[], []⟩).shape
      = ds.map (fun d => d.values.length) := by
    rw [meshgridIJ_headD_shape (by simpa using h1)]
    simp [List.map_map, Function.comp]
  have hbind : bindGrids (ds.map (fun d => (d.name, rawOwned d)))
      (meshgridIJ (ds.map Dimension.values))
      = (ds.zip (meshgridIJ (ds.map Dimension.values))).map
          (fun p => (p.1.name, boundDim p.1 p.2)) := by
    simp only [bindGrids]
    rw [zip_map_left]
    simp [List.map_map, Function.comp, rawOwned, boundDim]
  rw [hbind, hshape]
  rfl

theorem getD_map_of_lt {α β : Type} (f : α → β) (l : List α) (i : Nat)
    (d : β) (d' : α) (h : i < l.length) :
    (l.map f).getD i d = f (l.getD i d') := by
  induction l generalizing i with
  | nil => simp at h
  | cons a as ih =>
    cases i with
    | zero => rfl
    | succ j =>
      simp only [List.map_cons, List.getD_cons_succ]
      exact ih j (by simpa using h)

theorem zip_getElem?_eq {α β : Type} (da : α) (db : β) :
    ∀ (l : List α) (r : List β) (i : Nat), i < l.length → i < r.length →
      (l.zip r)[i]? = some (l.getD i da, r.getD i db) := by
  intro l
  induction l with
  | nil => intro r i h _; simp at h
  | cons a as ih =>
    intro r i hl hr
    cases r with
    | nil => simp at hr
    | cons b bs =>
      cases i with
      | zero => simp [List.zip_cons_cons]
      | succ j =>
        simp only [List.zip_cons_cons, List.getElem?_cons_succ, List.getD_cons_succ]
        exact ih bs j (by simpa using hl) (by simpa using hr)

theorem initResult_dimsMap_fst (ds : List Dimension) :
    (initResult ds).dims_map.map Prod.fst = ds.map Dimension.name := by
  simp only [initResult, List.map_map]
  have hlen : ds.length = (meshgridIJ (ds.map Dimension.values)).length := by
    rw [meshgridIJ_length, List.length_map]
  have := zip_map_fst_eq ds (meshgridIJ (ds.map Dimension.values)) hlen
  calc (ds.zip (meshgridIJ (ds.map Dimension.values))).map
        (Prod.fst ∘ fun p => (p.1.name, boundDim p.1 p.2))
      = ((ds.zip (meshgridIJ (ds.map Dimension.values))).map (fun p => p.1)).map
          Dimension.name := by
        rw [List.map_map]
        rfl
    _ = ds.map Dimension.name := by rw [this]

theorem initResult_dims (ds : List Dimension)
    (h2 : (ds.map Dimension.name).Nodup) :
    (initResult ds).dims = (ds.zip (meshgridIJ (ds.map Dimension.values))).map
      (fun p => boundDim p.1 p.2) := by
  show ((initResult ds).dims_ordering).filterMap
      (fun p => lookupDict (initResult ds).dims_map p.2) = _
  have hord : (initResult ds).dims_ordering = pyEnum (ds.map Dimension.name) := rfl
  rw [hord]
  unfold pyEnum
  rw [enumFromN_filterMap_snd]
  have hkeys := initResult_dimsMap_fst ds
  have hnd : ((initResult ds).dims_map.map Prod.fst).Nodup := by rw [hkeys]; exact h2
  have := lookupSelf_of_nodup hnd
  rw [hkeys] at this
  rw [this]
  simp only [initResult, List.map_map]
  rfl

theorem initResult_dims_length (ds : List Dimension)
    (h2 : (ds.map Dimension.name).Nodup) :
    (initResult ds).dims.length = ds.length := by
  rw [initResult_dims ds h2, List.length_map, List.length_zip,
    meshgridIJ_length, List.length_map, Nat.min_self]

theorem initResult_dimAt (ds : List Dimension)
    (h2 : (ds.map Dimension.name).Nodup) {i : Nat} (hi : i < ds.length) :
    (initResult ds).dimAt i
      = boundDim (ds.getD i ⟨"", [], true, none, false⟩)
          ((meshgridIJ (ds.map Dimension.values)).getD i ⟨[], []⟩) := by
  unfold Library.dimAt
  rw [initResult_dims ds h2, List.getD_eq_getElem?_getD, List.getElem?_map,
    zip_getElem?_eq ⟨"", [], true, none, false⟩ ⟨[], []⟩ ds _ i hi
      (by rw [meshgridIJ_length, List.length_map]; exact hi)]
  rfl

theorem initResult_gridInvariant (ds : List Dimension)
    (h2 : (ds.map Dimension.name).Nodup) :
    (initResult ds).gridInvariant := by
  intro i hi
  have hlen := initResult_dims_length ds h2
  have hi' : i < ds.length := by rw [hlen] at hi; exact hi
  have hvlen : i < (ds.map Dimension.values).length := by
    rw [List.length_map]; exact hi'
  refine ⟨(meshgridIJ (ds.map Dimension.values)).getD i ⟨[], []⟩, ?_, ?_, ?_⟩
  · rw [initResult_dimAt ds h2 hi']
    rfl
  · rw [List.getD_eq_getElem?_getD, meshgridIJ_getElem? hvlen]
    show (initResult ds).grid_shape = some ((ds.map Dimension.values).map List.length)
    simp only [initResult, List.map_map]
    rfl
  · intro js hjslen hjsb
    have hforall : List.Forall₂ (fun j n => j < n) js
        ((ds.map Dimension.values).map List.length) := by
      refine forall₂_lt_of_getD ?_ ?_
      · rw [hjslen, hlen]
        simp
      · intro k hk
        have hk' : k < ds.length := by simpa using hk
        have hb := hjsb k (by rw [hlen]; exact hk')
        rw [initResult_dimAt ds h2 hk'] at hb
        have : ((ds.map Dimension.values).map List.length).getD k 0
            = (ds.getD k ⟨"", [], true, none, false⟩).values.length := by
          rw [getD_map_of_lt List.length _ k 0 [] (by simpa using hk'),
            getD_map_of_lt Dimension.values _ k [] ⟨"", [], true, none, false⟩ hk']
        rw [this]
        exact hb
    rw [meshgridIJ_entry hvlen hforall, initResult_dimAt ds h2 hi']
    show ((ds.map Dimension.values).getD i []).getD (js.getD i 0) 0
        = (ds.getD i ⟨"", [], true, none, false⟩).values.getD (js.getD i 0) 0
    rw [getD_map_of_lt Dimension.values ds i [] ⟨"", [], true, none, false⟩ hi']

theorem headD_eq_getD {α : Type} (l : List α) (d : α) :
    l.headD d = l.getD 0 d := by
  cases l <;> rfl

theorem initResult_head_grid_shape (ds : List Dimension) (h1 : ds ≠ [])
    (h2 : (ds.map Dimension.name).Nodup) :
    (((initResult ds).dims.headD ⟨"", [], true, none, false⟩).gridArr).shape
      = ds.map (fun d => d.values.length) := by
  rw [headD_eq_getD]
  have h0 : 0 < ds.length := by
    cases ds with
    | nil => exact absurd rfl h1
    | cons _ _ => simp
  have hd := initResult_dimAt ds h2 h0
  unfold Library.dimAt at hd
  rw [hd]
  show ((meshgridIJ (ds.map Dimension.values)).getD 0 ⟨[], []⟩).shape = _
  rw [List.getD_eq_getElem?_getD,
    meshgridIJ_getElem? (by rw [List.length_map]; exact h0)]
  simp [List.map_map]

theorem initResult_shapeOf (ds : List Dimension) (h1 : ds ≠ [])
    (h2 : (ds.map Dimension.name).Nodup) :
    (initResult ds).shapeOf = some (ds.map (fun d => d.values.length)) := by
  have hlen := initResult_dims_length ds h2
  have h0 : 0 < ds.length := by
    cases ds with
    | nil => exact absurd rfl h1
    | cons _ _ => simp
  unfold Library.shapeOf
  cases hdm : (initResult ds).dims with
  | nil =>
    rw [hdm] at hlen
    simp at hlen
    omega
  | cons d rest =>
    show some (d.gridArr).shape = some (ds.map (fun d => d.values.length))
    have hde : d = ((initResult ds).dims.headD ⟨"", [], true, none, false⟩) := by
      rw [hdm]; rfl
    rw [hde, initResult_head_grid_shape ds h1 h2]

/-! ### Field-preservation machinery for property-replay folds -/

theorem setItemRun_none {L : Library} {q : String} {v : NDArray}
    (h : L.grid_shape = none) :
    L.setItemRun q v = (L, some PyErr.attributeError) := by
  simp [Library.setItemRun, h]

theorem setItemRun_mismatch {L : Library} {gs : List Nat} {q : String}
    {v : NDArray} (h : L.grid_shape = some gs) (hsh : v.shape ≠ gs) :
    L.setItemRun q v = (L, some PyErr.valueError) := by
  simp [Library.setItemRun, h, hsh]

theorem setItemRun_ok {L : Library} {gs : List Nat} {q : String} {v : NDArray}
    (h : L.grid_shape = some gs) (hs : v.shape = gs) :
    L.setItemRun q v = ({ L with props := dictInsert L.props q v }, none) := by
  simp [Library.setItemRun, h, hs]

theorem setItem_ok_of {L : Library} {gs : List Nat} {q : String} {v : NDArray}
    (h : L.grid_shape = some gs) (hs : v.shape = gs) :
    L.setItem q v = .ok { L with props := dictInsert L.props q v } := by
  unfold Library.setItem
  rw [setItemRun_ok h hs]

theorem setItem_ok_inv {L L' : Library} {q : String} {v : NDArray}
    (h : L.setItem q v = .ok L') :
    L' = { L with props := dictInsert L.props q v } := by
  unfold Library.setItem at h
  cases hgs : L.grid_shape with
  | none =>
    rw [setItemRun_none hgs] at h
    exact absurd
      (h : (Except.error PyErr.attributeError : Except PyErr Library) = Except.ok L')
      (by simp)
  | some gs =>
    by_cases hsh : v.shape = gs
    · rw [setItemRun_ok hgs hsh] at h
      have h2 : Except.ok { L with props := dictInsert L.props q v } = Except.ok L' := h
      rw [← hgs]
      exact (Except.ok.inj h2).symm
    · rw [setItemRun_mismatch hgs hsh] at h
      exact absurd
        (h : (Except.error PyErr.valueError : Except PyErr Library) = Except.ok L')
        (by simp)

theorem foldlM_ok_of_pres {β : Type} (step : Library → β → Except PyErr Library)
    (P : Library → Prop) :
    ∀ (ps : List β) (L0 : Library), P L0 →
      (∀ L b, P L → b ∈ ps → ∃ L', step L b = .ok L' ∧ P L') →
      ∃ L', ps.foldlM step L0 = .ok L' ∧ P L' := by
  intro ps
  induction ps with
  | nil => intro L0 hP _; exact ⟨L0, rfl, hP⟩
  | cons b rest ih =>
    intro L0 hP hstep
    obtain ⟨L1, hs1, hP1⟩ := hstep L0 b hP (by simp)
    obtain ⟨L', hs', hP'⟩ := ih L1 hP1 (fun L c hPc hc => hstep L c hPc (by simp [hc]))
    refine ⟨L', ?_, hP'⟩
    rw [List.foldlM_cons, hs1]
    show (pure L1 : Except PyErr Library) >>= _ = _
    rw [pure_bind]
    exact hs'

theorem replay_props :
    ∀ (ps : List (String × NDArray)) (L0 : Library) (gs : List Nat),
      L0.grid_shape = some gs →
      (∀ p ∈ ps, p.2.shape = gs) →
      ((L0.props.map Prod.fst ++ ps.map Prod.fst)).Nodup →
      ps.foldlM (fun acc p => acc.setItem p.1 p.2) L0
        = .ok { L0 with props := L0.props ++ ps } := by
  intro ps
  induction ps with
  | nil => intro L0 gs _ _ _; simp [List.foldlM]; rfl
  | cons p rest ih =>
    intro L0 gs hgs hsh hnd
    rw [List.foldlM_cons, setItem_ok_of hgs (hsh p (by simp))]
    show (pure _ : Except PyErr Library) >>= _ = _
    rw [pure_bind]
    have hfresh : p.1 ∉ L0.props.map Prod.fst := by
      intro hmem
      simp only [List.map_cons] at hnd
      have := (List.nodup_append.mp hnd).2.2
      exact this hmem (by simp)
    rw [dictInsert_fresh p.2 hfresh]
    have hres := ih { L0 with props := L0.props ++ [p] } gs hgs
      (fun x hx => hsh x (by simp [hx])) (by
        simp only [List.map_append, List.map_cons] at hnd ⊢
        simpa [List.append_assoc] using hnd)
    rw [hres]
    simp

/-! ### Unpacking `Library.wf` -/

theorem wf_facts (L : Library) (h : L.wf = true) :
    L.dims_map ≠ [] ∧
    (L.dims_map.map Prod.fst).Nodup ∧
    L.dims_ordering = pyEnum (L.dims_map.map Prod.fst) ∧
    (∀ p ∈ L.dims_map, p.1 = p.2.name ∧ p.2.ctorOKb = true ∧
      p.2.structured = true ∧ p.2.libraryOwned = true) ∧
    L.grid_shape = some (L.dims_map.map (fun p => p.2.values.length)) ∧
    L.structured = true ∧
    (L.props.map Prod.fst).Nodup ∧
    (∀ p ∈ L.props, p.2.shape = L.dims_map.map (fun q => q.2.values.length) ∧
      p.2.data.length = natProd p.2.shape) ∧
    (L.extra_attributes.map Prod.fst).Nodup := by
  simp only [Library.wf, Bool.and_eq_true, decide_eq_true_eq, List.all_eq_true,
    Bool.not_eq_eq_eq_not, Bool.not_true] at h
  obtain ⟨⟨⟨⟨⟨⟨⟨⟨hne, hnd⟩, hord⟩, hall⟩, hgs⟩, hstr⟩, hpnd⟩, hpall⟩, hend⟩ := h
  have hne2 : L.dims_map ≠ [] := by
    intro he
    rw [he] at hne
    simp at hne
  refine ⟨hne2, hnd, hord, ?_, hgs, hstr, hpnd, ?_, hend⟩
  · intro p hp
    have := hall p hp
    simp only [Bool.and_eq_true, decide_eq_true_eq] at this
    exact ⟨this.1.1.1, this.1.1.2, this.1.2, this.2⟩
  · intro p hp
    have := hpall p hp
    simp only [Bool.and_eq_true, decide_eq_true_eq] at this
    exact this

theorem wf_dims_eq (L : Library) (h : L.wf = true) :
    L.dims = L.dims_map.map Prod.snd := by
  obtain ⟨_, hnd, hord, _, _, _, _, _, _⟩ := wf_facts L h
  show L.dims_ordering.filterMap (fun p => lookupDict L.dims_map p.2) = _
  rw [hord]
  unfold pyEnum
  rw [enumFromN_filterMap_snd, lookupSelf_of_nodup hnd]

theorem wf_dims_names (L : Library) (h : L.wf = true) :
    L.dims.map Dimension.name = L.dims_map.map Prod.fst := by
  obtain ⟨_, _, _, hall, _, _, _, _, _⟩ := wf_facts L h
  rw [wf_dims_eq L h, List.map_map]
  exact (List.map_congr_left (fun p hp => ((hall p hp).1).symm)).symm
    |>.symm.trans rfl

theorem wf_dims_nodup_names (L : Library) (h : L.wf = true) :
    (L.dims.map Dimension.name).Nodup := by
  rw [wf_dims_names L h]
  exact (wf_facts L h).2.1

theorem wf_dims_length (L : Library) (h : L.wf = true) :
    L.dims.length = L.dims_map.length := by
  rw [wf_dims_eq L h, List.length_map]

theorem replay_extras :
    ∀ (eas : List (String × Val)) (L0 : Library),
      ((L0.extra_attributes.map Prod.fst ++ eas.map Prod.fst)).Nodup →
      eas.foldl (fun acc p => acc.addExtra p.1 p.2) L0
        = { L0 with extra_attributes := L0.extra_attributes ++ eas } := by
  intro eas
  induction eas with
  | nil => intro L0 _; simp
  | cons p rest ih =>
    intro L0 hnd
    simp only [List.foldl_cons]
    have hfresh : p.1 ∉ L0.extra_attributes.map Prod.fst := by
      intro hmem
      simp only [List.map_cons] at hnd
      exact (List.nodup_append.mp hnd).2.2 hmem (by simp)
    show rest.foldl (fun acc q => acc.addExtra q.1 q.2) (L0.addExtra p.1 p.2) = _
    have haddE : L0.addExtra p.1 p.2
        = { L0 with extra_attributes := L0.extra_attributes ++ [p] } := by
      unfold Library.addExtra
      rw [dictInsert_fresh p.2 hfresh]
    rw [haddE]
    have := ih { L0 with extra_attributes := L0.extra_attributes ++ [p] } (by
      simp only [List.map_append, List.map_cons] at hnd ⊢
      simpa [List.append_assoc] using hnd)
    rw [this]
    simp

/-! ### Characterisation of save / load -/

/-- A free Dimension rebuilt from its pickled definition. -/
def freeOfSave (s : DimSave) : Dimension :=
  ⟨s.name, s.values, s.structured, none, false⟩

theorem lookupDict_self_mem {α : Type} :
    ∀ {ps : List (String × α)}, (ps.map Prod.fst).Nodup →
      ∀ {p}, p ∈ ps → lookupDict ps p.1 = some p.2 := by
  intro ps
  induction ps with
  | nil => intro _ p hp; simp at hp
  | cons q rest ih =>
    intro hnd p hp
    cases hp with
    | head =>
      cases q with
      | mk k v => exact lookupDict_cons_self k v rest
    | tail _ hmem =>
      have hne : q.1 ≠ p.1 := by
        intro he
        have hk : q.1 ∈ rest.map Prod.fst := by
          rw [he]
          exact List.mem_map.mpr ⟨p, hmem, rfl⟩
        simp only [List.map_cons] at hnd
        exact (List.nodup_cons.mp hnd).1 hk
      cases q with
      | mk k v =>
        rw [lookupDict_cons_ne v rest hne]
        exact ih (by simpa using (List.nodup_cons.mp (by simpa using hnd)).2) hmem

theorem slots_fold (full : List (String × DimSave)) :
    ∀ (ps : List (String × DimSave)) (k : Nat) (done : List (Option Dimension)),
      done.length = k →
      (∀ p ∈ ps, lookupDict full p.1 = some p.2) →
      (∀ p ∈ ps, mkDimension p.2.name p.2.values p.2.structured false
        = .ok (freeOfSave p.2)) →
      (enumFromN k (ps.map Prod.fst)).foldlM (setstateStep full)
        (done ++ List.replicate ps.length none)
      = Except.ok (done ++ ps.map (fun p => some (freeOfSave p.2))) := by
  intro ps
  induction ps with
  | nil =>
    intro k done _ _ _
    simp only [List.map_nil, List.replicate, List.append_nil]
    rfl
  | cons p rest ih =>
    intro k done hk hlook hmk
    obtain ⟨pn, pv⟩ := p
    simp only [List.map_cons, enumFromN]
    rw [List.foldlM_cons]
    have hrepl : List.replicate ((pn, pv) :: rest).length (none : Option Dimension)
        = none :: List.replicate rest.length none := by
      simp [List.replicate_succ]
    rw [hrepl]
    have hlt : k < (done ++ none :: List.replicate rest.length none).length := by
      simp only [List.length_append, List.length_cons]
      omega
    have hstep :
        setstateStep full (done ++ none :: List.replicate rest.length none) (k, pn)
        = Except.ok ((done ++ [some (freeOfSave pv)])
            ++ List.replicate rest.length none) := by
      show (match lookupDict full pn with
          | none => Except.error PyErr.keyError
          | some ds => do
            let d ← mkDimension ds.name ds.values ds.structured false
            if k < (done ++ none :: List.replicate rest.length none).length then
              pure ((done ++ none :: List.replicate rest.length none).set k (some d))
            else Except.error PyErr.indexError) = _
      rw [hlook (pn, pv) (by simp)]
      show (do
        let d ← mkDimension (pn, pv).2.name (pn, pv).2.values (pn, pv).2.structured false
        if k < (done ++ none :: List.replicate rest.length none).length then
          pure ((done ++ none :: List.replicate rest.length none).set k (some d))
        else Except.error PyErr.indexError) = _
      rw [hmk (pn, pv) (by simp)]
      show (pure (freeOfSave pv) : Except PyErr Dimension) >>= _ = _
      rw [pure_bind, if_pos hlt, ← hk, set_append_length]
      show Except.ok (done ++ some (freeOfSave pv) :: List.replicate rest.length none) = _
      simp
    rw [hstep]
    show (pure _ : Except PyErr (List (Option Dimension))) >>= _ = _
    rw [pure_bind]
    have := ih (k + 1) (done ++ [some (freeOfSave pv)])
      (by simp [hk]) (fun x hx => hlook x (by simp [hx]))
      (fun x hx => hmk x (by simp [hx]))
    rw [this]
    simp

/-- The free reconstructions of a wellformed library's dimensions (what
`__setstate__` rebuilds before re-running `__init__`). -/
def freeDimsOf (L : Library) : List Dimension :=
  L.dims_map.map (fun p => freeDim p.2)

/-- The library that `__setstate__` produces from a wellformed library's
`__getstate__` capture. -/
def setstateResult (L : Library) : Library :=
  { initResult (freeDimsOf L) with
    props := L.props
    extra_attributes := L.extra_attributes }

theorem ctorOKb_freeDim (d : Dimension) : (freeDim d).ctorOKb = d.ctorOKb := rfl

theorem freeDimsOf_names (L : Library) (h : L.wf = true) :
    (freeDimsOf L).map Dimension.name = L.dims_map.map Prod.fst := by
  obtain ⟨_, _, _, hall, _, _, _, _, _⟩ := wf_facts L h
  unfold freeDimsOf
  rw [List.map_map]
  exact List.map_congr_left (fun p hp => ((hall p hp).1).symm)

theorem freeDimsOf_hyps (L : Library) (h : L.wf = true) :
    freeDimsOf L ≠ [] ∧ ((freeDimsOf L).map Dimension.name).Nodup ∧
    ∀ d ∈ freeDimsOf L, d.ctorOKb = true ∧ d.structured = true := by
  obtain ⟨hne, hnd, _, hall, _, _, _, _, _⟩ := wf_facts L h
  refine ⟨?_, ?_, ?_⟩
  · intro he
    unfold freeDimsOf at he
    exact hne (List.map_eq_nil_iff.mp he)
  · rw [freeDimsOf_names L h]
    exact hnd
  · intro d hd
    unfold freeDimsOf at hd
    rw [List.mem_map] at hd
    obtain ⟨p, hp, rfl⟩ := hd
    exact ⟨(hall p hp).2.1, (hall p hp).2.2.1⟩

theorem freeDimsOf_lengths (L : Library) :
    (freeDimsOf L).map (fun d => d.values.length)
      = L.dims_map.map (fun p => p.2.values.length) := by
  unfold freeDimsOf
  rw [List.map_map]
  rfl


theorem setstate_getstate (L : Library) (h : L.wf = true) :
    Library.setstate L.getstate = .ok (setstateResult L) := by
  obtain ⟨hne, hnd, hord, hall, hgs, hstr, hpnd, hpall, hend⟩ := wf_facts L h
  have hkeys : L.getstate.dimensions.map Prod.fst = L.dims_map.map Prod.fst := by
    show (L.dims_map.map (fun p => (p.1,
      (⟨p.2.name, p.2.values, p.2.structured⟩ : DimSave)))).map Prod.fst = _
    rw [List.map_map]
    rfl
  have hordst : L.getstate.dim_ordering
      = enumFromN 0 (L.getstate.dimensions.map Prod.fst) := by
    show L.dims_ordering = _
    rw [hkeys, hord]
    rfl
  have hlook : ∀ p ∈ L.getstate.dimensions,
      lookupDict L.getstate.dimensions p.1 = some p.2 := by
    intro p hp
    refine lookupDict_self_mem ?_ hp
    rw [hkeys]
    exact hnd
  have hmk : ∀ p ∈ L.getstate.dimensions,
      mkDimension p.2.name p.2.values p.2.structured false
        = .ok (freeOfSave p.2) := by
    intro p hp
    have hp2 : p ∈ L.dims_map.map (fun q => (q.1,
        (⟨q.2.name, q.2.values, q.2.structured⟩ : DimSave))) := hp
    rw [List.mem_map] at hp2
    obtain ⟨q, hq, rfl⟩ := hp2
    have hok : (q.2).ctorOKb = true := (hall q hq).2.1
    exact mkDimension_ok false hok
  obtain ⟨hfd1, hfd2, hfd3⟩ := freeDimsOf_hyps L h
  have hfdmap : L.getstate.dimensions.map (fun p => freeOfSave p.2)
      = freeDimsOf L := by
    show (L.dims_map.map (fun p => (p.1,
      (⟨p.2.name, p.2.values, p.2.structured⟩ : DimSave)))).map
        (fun p => freeOfSave p.2) = _
    rw [List.map_map]
    rfl
  unfold Library.setstate
  rw [hordst]
  have hslots := slots_fold L.getstate.dimensions L.getstate.dimensions 0 []
    rfl hlook hmk
  rw [List.nil_append, List.nil_append] at hslots
  rw [hslots]
  show (pure _ : Except PyErr (List (Option Dimension))) >>= _ = _
  rw [pure_bind]
  have hmaps : L.getstate.dimensions.map (fun p => some (freeOfSave p.2))
      = (L.getstate.dimensions.map (fun p => freeOfSave p.2)).map
          (fun d => some d) := by
    rw [List.map_map]
    rfl
  rw [hmaps, mapM_extract_some]
  show (pure _ : Except PyErr (List Dimension)) >>= _ = _
  rw [pure_bind, hfdmap, init_char (freeDimsOf L) hfd1 hfd2 hfd3]
  show (pure _ : Except PyErr Library) >>= _ = _
  rw [pure_bind]
  have hprops : L.getstate.properties = L.props := rfl
  have hreplay := replay_props L.props (initResult (freeDimsOf L))
    (L.dims_map.map (fun p => p.2.values.length))
    (by
      show some ((freeDimsOf L).map (fun d => d.values.length)) = _
      rw [freeDimsOf_lengths])
    (fun p hp => (hpall p hp).1)
    (by
      show ((([] : List (String × NDArray)).map Prod.fst)
        ++ L.props.map Prod.fst).Nodup
      simpa using hpnd)
  rw [hprops, hreplay]
  show (pure _ : Except PyErr Library) >>= _ = _
  rw [pure_bind]
  show pure (List.foldl (fun acc p => acc.addExtra p.1 p.2)
      { initResult (freeDimsOf L) with
        props := (initResult (freeDimsOf L)).props ++ L.props }
      L.extra_attributes) = Except.ok (setstateResult L)
  have hexnd : (({ initResult (freeDimsOf L) with
      props := (initResult (freeDimsOf L)).props ++ L.props
        }).extra_attributes.map Prod.fst
      ++ L.extra_attributes.map Prod.fst).Nodup := by
    show ((([] : List (String × Val)).map Prod.fst)
      ++ L.extra_attributes.map Prod.fst).Nodup
    simpa using hend
  rw [replay_extras L.extra_attributes _ hexnd]
  rfl

theorem initResult_dims_names (ds : List Dimension)
    (h2 : (ds.map Dimension.name).Nodup) :
    (initResult ds).dims.map Dimension.name = ds.map Dimension.name := by
  rw [initResult_dims ds h2, List.map_map]
  have hlen : ds.length = (meshgridIJ (ds.map Dimension.values)).length := by
    rw [meshgridIJ_length, List.length_map]
  calc (ds.zip (meshgridIJ (ds.map Dimension.values))).map
        (Dimension.name ∘ fun p => boundDim p.1 p.2)
      = ((ds.zip (meshgridIJ (ds.map Dimension.values))).map (fun p => p.1)).map
          Dimension.name := by
        rw [List.map_map]
        rfl
    _ = ds.map Dimension.name := by rw [zip_map_fst_eq ds _ hlen]

theorem initResult_dims_values (ds : List Dimension)
    (h2 : (ds.map Dimension.name).Nodup) :
    (initResult ds).dims.map Dimension.values = ds.map Dimension.values := by
  rw [initResult_dims ds h2, List.map_map]
  have hlen : ds.length = (meshgridIJ (ds.map Dimension.values)).length := by
    rw [meshgridIJ_length, List.length_map]
  calc (ds.zip (meshgridIJ (ds.map Dimension.values))).map
        (Dimension.values ∘ fun p => boundDim p.1 p.2)
      = ((ds.zip (meshgridIJ (ds.map Dimension.values))).map (fun p => p.1)).map
          Dimension.values := by
        rw [List.map_map]
        rfl
    _ = ds.map Dimension.values := by rw [zip_map_fst_eq ds _ hlen]

theorem setstateResult_equiv (L : Library) (h : L.wf = true) :
    L.equiv (setstateResult L) := by
  obtain ⟨hfd1, hfd2, hfd3⟩ := freeDimsOf_hyps L h
  have hdims : (setstateResult L).dims = (initResult (freeDimsOf L)).dims := rfl
  refine ⟨?_, ?_, rfl, rfl⟩
  · rw [hdims, initResult_dims_names (freeDimsOf L) hfd2, freeDimsOf_names L h,
      wf_dims_names L h]
  · rw [hdims, initResult_dims_values (freeDimsOf L) hfd2, wf_dims_eq L h]
    show List.map Dimension.values (L.dims_map.map Prod.snd)
        = List.map Dimension.values (L.dims_map.map (fun p => freeDim p.2))
    rw [List.map_map, List.map_map]
    rfl

/-! ### Characterisation of copy, deepcopy, squeeze and slicing on
wellformed libraries -/

theorem wf_dims_ctorOK (L : Library) (h : L.wf = true) :
    ∀ d ∈ L.dims, d.ctorOKb = true ∧ d.structured = true := by
  obtain ⟨_, _, _, hall, _, _, _, _, _⟩ := wf_facts L h
  intro d hd
  rw [wf_dims_eq L h, List.mem_map] at hd
  obtain ⟨p, hp, rfl⟩ := hd
  exact ⟨(hall p hp).2.1, (hall p hp).2.2.1⟩

theorem wf_dims_ne (L : Library) (h : L.wf = true) : L.dims ≠ [] := by
  obtain ⟨hne, _, _, _, _, _, _, _, _⟩ := wf_facts L h
  rw [wf_dims_eq L h]
  intro he
  exact hne (List.map_eq_nil_iff.mp he)

theorem copyV_char (L : Library) (h : L.wf = true) :
    L.copyV = .ok { initResult (L.dims.map freeDim) with props := L.props } := by
  obtain ⟨_, _, _, _, hgs, _, hpnd, hpall, _⟩ := wf_facts L h
  have hmkall : ∀ d ∈ L.dims, mkDimension d.name d.values d.structured false
      = .ok (freeDim d) := by
    intro d hd
    exact mkDimension_ok false (wf_dims_ctorOK L h d hd).1
  unfold Library.copyV
  rw [mapM_ok_of_forall hmkall]
  show (pure _ : Except PyErr (List Dimension)) >>= _ = _
  rw [pure_bind]
  have hds1 : L.dims.map freeDim ≠ [] := by
    intro he
    exact wf_dims_ne L h (List.map_eq_nil_iff.mp he)
  have hds2 : ((L.dims.map freeDim).map Dimension.name).Nodup := by
    rw [List.map_map]
    show (L.dims.map (Dimension.name ∘ freeDim)).Nodup
    have : L.dims.map (Dimension.name ∘ freeDim) = L.dims.map Dimension.name := rfl
    rw [this]
    exact wf_dims_nodup_names L h
  have hds3 : ∀ d ∈ L.dims.map freeDim, d.ctorOKb = true ∧ d.structured = true := by
    intro d hd
    rw [List.mem_map] at hd
    obtain ⟨d0, hd0, rfl⟩ := hd
    exact ⟨(wf_dims_ctorOK L h d0 hd0).1, (wf_dims_ctorOK L h d0 hd0).2⟩
  rw [init_char (L.dims.map freeDim) hds1 hds2 hds3]
  show (pure _ : Except PyErr Library) >>= _ = _
  rw [pure_bind]
  have hlens : (L.dims.map freeDim).map (fun d => d.values.length)
      = L.dims_map.map (fun p => p.2.values.length) := by
    rw [List.map_map]
    show L.dims.map ((fun d => d.values.length) ∘ freeDim) = _
    have h1 : L.dims.map ((fun d => d.values.length) ∘ freeDim)
        = L.dims.map (fun d => d.values.length) := rfl
    rw [h1, wf_dims_eq L h, List.map_map]
    rfl
  have hreplay := replay_props L.props (initResult (L.dims.map freeDim))
    (L.dims_map.map (fun p => p.2.values.length))
    (by
      show some ((L.dims.map freeDim).map (fun d => d.values.length)) = _
      rw [hlens])
    (fun p hp => (hpall p hp).1)
    (by
      show ((([] : List (String × NDArray)).map Prod.fst)
        ++ L.props.map Prod.fst).Nodup
      simpa using hpnd)
  rw [hreplay]
  rfl

theorem deepcopyV_char (L : Library) (h : L.wf = true) :
    L.deepcopyV = .ok { initResult (L.dims.map freeDim) with props := L.props } :=
  copyV_char L h

/-! ### Slicing: selection lists and validity -/

/-- The selection list of one axis, as a total function (meaningful when
`selOf` succeeds). -/
def selD (q : Nat × SliceArg) : List Nat :=
  (selOf q.1 q.2).toOption.getD []

/-- The sliced values of one dimension (the scalar case already rewrapped,
line 359). -/
def selValsOf (xs : List Val) (arg : SliceArg) : List Val :=
  (selD (xs.length, arg)).map (fun j => xs.getD j 0)

/-- The free Dimension built for one axis by the slicing branch of
`Library.__getitem__` (lines 357-361). -/
def sliceDim (p : Dimension × SliceArg) : Dimension :=
  ⟨p.1.name, selValsOf p.1.values p.2, p.1.structured, none, false⟩

/-- A slice specification is valid for a library when it has one component
per dimension and every component selects a non-empty, in-range set of
positions on its axis. -/
def validSpec (L : Library) (args : List SliceArg) : Bool :=
  (args.length = L.dims.length : Bool) &&
  ((L.dims.map (fun d => d.values.length)).zip args).all (fun p =>
    match selOf p.1 p.2 with
    | .ok sel => !sel.isEmpty
    | .error _ => false)

theorem normEnd_le (n : Nat) (v : Int) : normEnd n v ≤ n := by
  unfold normEnd
  split
  · rename_i hv
    have : v + (n : Int) ≤ (n : Int) := by omega
    omega
  · exact Nat.min_le_right _ _

theorem selOf_idx_cases {n : Nat} {i : Int} {sel : List Nat}
    (h : selOf n (.idx i) = .ok sel) : ∃ j : Nat, sel = [j] ∧ j < n := by
  simp only [selOf] at h
  by_cases hi : i < 0
  · simp only [if_pos hi] at h
    split at h
    · rename_i hc
      simp only [Bool.and_eq_true, decide_eq_true_eq] at hc
      exact ⟨(i + n).toNat, (Except.ok.inj h).symm, by omega⟩
    · exact absurd h (by simp)
  · simp only [if_neg hi] at h
    split at h
    · rename_i hc
      simp only [Bool.and_eq_true, decide_eq_true_eq] at hc
      exact ⟨i.toNat, (Except.ok.inj h).symm, by omega⟩
    · exact absurd h (by simp)

/-- Normalised start endpoint of a Python slice on an axis of extent `n`. -/
def slcStart (n : Nat) : Option Int → Nat
  | none => 0
  | some v => normEnd n v

/-- Normalised stop endpoint of a Python slice on an axis of extent `n`. -/
def slcStop (n : Nat) : Option Int → Nat
  | none => n
  | some v => normEnd n v

theorem selOf_slc_eq (n : Nat) (a b : Option Int) :
    selOf n (.slc a b)
      = .ok (rangeFromLen (slcStart n a) (slcStop n b - slcStart n a)) := by
  cases a <;> cases b <;> rfl

theorem slcStart_le (n : Nat) (a : Option Int) : slcStart n a ≤ n := by
  cases a with
  | none => exact Nat.zero_le n
  | some v => exact normEnd_le n v

theorem slcStop_le (n : Nat) (b : Option Int) : slcStop n b ≤ n := by
  cases b with
  | none => exact Nat.le_refl n
  | some v => exact normEnd_le n v

theorem selOf_ok_bound {n : Nat} {arg : SliceArg} {sel : List Nat}
    (h : selOf n arg = .ok sel) : ∀ j ∈ sel, j < n := by
  intro j hj
  cases arg with
  | idx i =>
    obtain ⟨j0, rfl, hj0⟩ := selOf_idx_cases h
    simp only [List.mem_singleton] at hj
    subst hj
    exact hj0
  | slc a b =>
    rw [selOf_slc_eq n a b] at h
    have hsel := (Except.ok.inj h).symm
    rw [hsel] at hj
    have hmem := mem_rangeFromLen hj
    have hs0 := slcStart_le n a
    have hs1 := slcStop_le n b
    omega

theorem selOf_ok_nodup {n : Nat} {arg : SliceArg} {sel : List Nat}
    (h : selOf n arg = .ok sel) : sel.Nodup := by
  cases arg with
  | idx i =>
    obtain ⟨j0, rfl, _⟩ := selOf_idx_cases h
    simp
  | slc a b =>
    rw [selOf_slc_eq n a b] at h
    have hsel := (Except.ok.inj h).symm
    rw [hsel]
    exact rangeFromLen_nodup _ _

theorem getD_eq_get_of_lt {α : Type} (l : List α) (d : α) {j : Nat}
    (h : j < l.length) : l.getD j d = l.get ⟨j, h⟩ := by
  rw [List.getD_eq_getElem?_getD, List.getElem?_eq_getElem h]
  rfl

theorem nodup_map_getD (xs : List Val) (sel : List Nat) (hnd : sel.Nodup)
    (hb : ∀ j ∈ sel, j < xs.length) (hx : xs.Nodup) :
    (sel.map (fun j => xs.getD j 0)).Nodup := by
  refine hnd.map_on ?_
  intro j hj k hk he
  have hjl := hb j hj
  have hkl := hb k hk
  rw [getD_eq_get_of_lt xs 0 hjl, getD_eq_get_of_lt xs 0 hkl] at he
  have := hx.get_inj_iff.mp he
  exact congrArg Fin.val this

theorem ctorOKb_parts {d : Dimension} (h : d.ctorOKb = true) :
    d.values ≠ [] ∧ isPyIdent d.name = true ∧
      (d.structured = true → d.values.Nodup) := by
  simp only [Dimension.ctorOKb, Bool.and_eq_true, Bool.or_eq_true,
    Bool.not_eq_eq_eq_not, Bool.not_true, decide_eq_true_eq] at h
  refine ⟨?_, h.1.2, ?_⟩
  · intro he
    rw [he] at h
    simp at h
  · intro hs
    rcases h.2 with hns | hn
    · rw [hs] at hns
      simp at hns
    · exact hn

theorem ctorOKb_build {d : Dimension} (h1 : d.values ≠ [])
    (h2 : isPyIdent d.name = true)
    (h3 : d.structured = true → d.values.Nodup) : d.ctorOKb = true := by
  simp only [Dimension.ctorOKb, Bool.and_eq_true, Bool.or_eq_true,
    Bool.not_eq_eq_eq_not, Bool.not_true, decide_eq_true_eq]
  refine ⟨⟨?_, h2⟩, ?_⟩
  · cases hv : d.values with
    | nil => exact absurd hv h1
    | cons _ _ => rfl
  · cases hs : d.structured with
    | false => exact Or.inl rfl
    | true => exact Or.inr (h3 hs)

theorem validSpec_facts (L : Library) (args : List SliceArg)
    (hv : validSpec L args = true) :
    args.length = L.dims.length ∧
    ∀ p ∈ (L.dims.map (fun d => d.values.length)).zip args,
      selOf p.1 p.2 = .ok (selD p) ∧ selD p ≠ [] := by
  simp only [validSpec, Bool.and_eq_true, decide_eq_true_eq,
    List.all_eq_true] at hv
  refine ⟨hv.1, ?_⟩
  intro p hp
  have := hv.2 p hp
  cases hsel : selOf p.1 p.2 with
  | error e =>
    rw [hsel] at this
    simp at this
  | ok sel =>
    rw [hsel] at this
    have hne : sel ≠ [] := by
      intro he
      rw [he] at this
      simp at this
    have hselD : selD p = sel := by
      unfold selD
      rw [hsel]
      rfl
    rw [hselD]
    exact ⟨rfl, hne⟩

theorem sliceDim_ctorOK (L : Library) (args : List SliceArg) (h : L.wf = true)
    (hv : validSpec L args = true) :
    ∀ p ∈ L.dims.zip args,
      (sliceDim p).ctorOKb = true ∧ (sliceDim p).structured = true := by
  intro p hp
  have hmemd : p.1 ∈ L.dims := (List.of_mem_zip hp).1
  have hok := wf_dims_ctorOK L h p.1 hmemd
  obtain ⟨hvne, hident, hnodup⟩ := ctorOKb_parts hok.1
  have hq : (p.1.values.length, p.2)
      ∈ (L.dims.map (fun d => d.values.length)).zip args := by
    rw [zip_map_left]
    exact List.mem_map.mpr ⟨p, hp, rfl⟩
  obtain ⟨hsel, hselne⟩ := (validSpec_facts L args hv).2 _ hq
  refine ⟨?_, hok.2⟩
  refine ctorOKb_build ?_ ?_ ?_
  · show selValsOf p.1.values p.2 ≠ []
    unfold selValsOf
    intro he
    exact hselne (List.map_eq_nil_iff.mp he)
  · exact hident
  · intro _
    show (selValsOf p.1.values p.2).Nodup
    unfold selValsOf
    exact nodup_map_getD p.1.values _ (selOf_ok_nodup hsel)
      (selOf_ok_bound hsel) (hnodup hok.2)

theorem sliceStep_ok (L : Library) (args : List SliceArg) (h : L.wf = true)
    (hv : validSpec L args = true) :
    ∀ p ∈ L.dims.zip args,
      (do
        let vs ← applySliceValues p.1.values p.2
        mkDimension p.1.name vs p.1.structured false) = .ok (sliceDim p) := by
  intro p hp
  have hq : (p.1.values.length, p.2)
      ∈ (L.dims.map (fun d => d.values.length)).zip args := by
    rw [zip_map_left]
    exact List.mem_map.mpr ⟨p, hp, rfl⟩
  obtain ⟨hsel, hselne⟩ := (validSpec_facts L args hv).2 _ hq
  have happ : applySliceValues p.1.values p.2
      = .ok (selValsOf p.1.values p.2) := by
    unfold applySliceValues
    rw [hsel]
    show (pure _ : Except PyErr (List Nat)) >>= _ = _
    rw [pure_bind]
    rfl
  rw [happ]
  show (pure _ : Except PyErr (List Val)) >>= _ = _
  rw [pure_bind]
  exact mkDimension_ok false (sliceDim_ctorOK L args h hv p hp).1

/-- The array produced by basic slicing under a valid spec. -/
def ndSliceResult (a : NDArray) (args : List SliceArg) : NDArray :=
  ⟨(args.zip ((a.shape.zip args).map selD)).filterMap (fun p =>
      match p.1 with
      | .slc _ _ => some p.2.length
      | .idx _ => none),
    (allIndices (((a.shape.zip args).map selD).map List.length)).map (fun js =>
      a.atIdx ((((a.shape.zip args).map selD).zip js).map
        (fun q => q.1.getD q.2 0)))⟩

theorem ndSlice_ok (a : NDArray) (args : List SliceArg)
    (hlen : a.shape.length = args.length)
    (hsels : ∀ q ∈ a.shape.zip args, selOf q.1 q.2 = .ok (selD q)) :
    ndSlice a args = .ok (ndSliceResult a args) := by
  unfold ndSlice
  rw [if_pos hlen, mapM_ok_of_forall hsels]
  show (pure _ : Except PyErr (List (List Nat))) >>= _ = _
  rw [pure_bind]
  rfl

theorem ndSliceResult_data_length (a : NDArray) (args : List SliceArg) :
    (ndSliceResult a args).data.length
      = natProd (((a.shape.zip args).map selD).map List.length) := by
  show ((allIndices _).map _).length = _
  rw [List.length_map, allIndices_length]

theorem slice_lens_eq (D : List Dimension) (args : List SliceArg) :
    ((D.zip args).map sliceDim).map (fun d => d.values.length)
      = (((D.map (fun d => d.values.length)).zip args).map selD).map
          List.length := by
  rw [zip_map_left, List.map_map, List.map_map, List.map_map]
  refine (List.map_congr_left ?_)
  intro p _
  show (sliceDim p).values.length = (selD (p.1.values.length, p.2)).length
  unfold sliceDim selValsOf
  simp [List.length_map]

theorem wf_prop_shape (L : Library) (h : L.wf = true) :
    ∀ p ∈ L.props, p.2.shape = L.dims.map (fun d => d.values.length) := by
  obtain ⟨_, _, _, _, _, _, _, hpall, _⟩ := wf_facts L h
  intro p hp
  rw [(hpall p hp).1, wf_dims_eq L h, List.map_map]
  rfl

theorem dims_of_parts {L1 L2 : Library} (h1 : L1.dims_map = L2.dims_map)
    (h2 : L1.dims_ordering = L2.dims_ordering) : L1.dims = L2.dims := by
  unfold Library.dims
  rw [h1, h2]

theorem getitemSlice_char (L : Library) (args : List SliceArg)
    (h : L.wf = true) (hv : validSpec L args = true) :
    ∃ L', L.getitemSlice args = .ok L' ∧
      L'.dims_map = (initResult ((L.dims.zip args).map sliceDim)).dims_map ∧
      L'.dims_ordering
        = (initResult ((L.dims.zip args).map sliceDim)).dims_ordering ∧
      L'.grid_shape = (initResult ((L.dims.zip args).map sliceDim)).grid_shape := by
  obtain ⟨hlen, hvsel⟩ := validSpec_facts L args hv
  have hdne := wf_dims_ne L h
  have hziplen : (L.dims.zip args).length = L.dims.length :=
    zip_length_eq _ _ hlen.symm
  have hND1 : (L.dims.zip args).map sliceDim ≠ [] := by
    intro he
    have hlen0 := congrArg List.length he
    rw [List.length_map, hziplen] at hlen0
    exact hdne (List.length_eq_zero.mp (by simpa using hlen0))
  have hnames : ((L.dims.zip args).map sliceDim).map Dimension.name
      = L.dims.map Dimension.name := by
    rw [List.map_map]
    have h1 : (L.dims.zip args).map (Dimension.name ∘ sliceDim)
        = (L.dims.zip args).map (fun p => p.1.name) := rfl
    rw [h1]
    have h2 : (L.dims.zip args).map (fun p => p.1.name)
        = ((L.dims.zip args).map (fun p => p.1)).map Dimension.name := by
      rw [List.map_map]
      rfl
    rw [h2, zip_map_fst_eq L.dims args hlen.symm]
  have hND2 : (((L.dims.zip args).map sliceDim).map Dimension.name).Nodup := by
    rw [hnames]
    exact wf_dims_nodup_names L h
  have hND3 : ∀ d ∈ (L.dims.zip args).map sliceDim,
      d.ctorOKb = true ∧ d.structured = true := by
    intro d hd
    rw [List.mem_map] at hd
    obtain ⟨p, hp, rfl⟩ := hd
    exact sliceDim_ctorOK L args h hv p hp
  have hc1 : ¬(L.dims.isEmpty = true) := by
    intro he
    cases hLd : L.dims with
    | nil => exact hdne hLd
    | cons d0 dr =>
      rw [hLd] at he
      simp at he
  have hstruct0 : (L.dims.headD ⟨"", [], true, none, false⟩).structured = true := by
    cases hLd : L.dims with
    | nil => exact absurd hLd hdne
    | cons d0 dr =>
      have hd0m : d0 ∈ L.dims := by rw [hLd]; simp
      have hs := (wf_dims_ctorOK L h d0 hd0m).2
      simpa using hs
  have hc2 : ¬((!(L.dims.headD ⟨"", [], true, none, false⟩).structured) = true) := by
    rw [hstruct0]
    simp
  have hc3 : ¬(args.length ≠ L.dims.length) := by simp [hlen]
  have hgsND : (initResult ((L.dims.zip args).map sliceDim)).grid_shape
      = some (((L.dims.zip args).map sliceDim).map (fun d => d.values.length)) :=
    rfl
  have htgt := initResult_head_grid_shape ((L.dims.zip args).map sliceDim)
    hND1 hND2
  have hstep : ∀ (Lacc : Library) (p : String × NDArray),
      (Lacc.dims_map = (initResult ((L.dims.zip args).map sliceDim)).dims_map ∧
        Lacc.dims_ordering
          = (initResult ((L.dims.zip args).map sliceDim)).dims_ordering ∧
        Lacc.grid_shape
          = (initResult ((L.dims.zip args).map sliceDim)).grid_shape) →
      p ∈ L.props →
      ∃ L2, (do
          let sliced ← ndSlice p.2 args
          let target := ((initResult ((L.dims.zip args).map sliceDim)).dims.headD
            ⟨"", [], true, none, false⟩).gridArr.shape
          let reshaped ← npReshape sliced target
          Lacc.setItem p.1 reshaped) = .ok L2 ∧
        (L2.dims_map = (initResult ((L.dims.zip args).map sliceDim)).dims_map ∧
          L2.dims_ordering
            = (initResult ((L.dims.zip args).map sliceDim)).dims_ordering ∧
          L2.grid_shape
            = (initResult ((L.dims.zip args).map sliceDim)).grid_shape) := by
    intro Lacc p hP hp
    have hshape := wf_prop_shape L h p hp
    have hndlen : p.2.shape.length = args.length := by
      rw [hshape, List.length_map, hlen]
    have hnds : ∀ q ∈ p.2.shape.zip args, selOf q.1 q.2 = .ok (selD q) := by
      rw [hshape]
      intro q hq
      exact (hvsel q hq).1
    have hdata : (ndSliceResult p.2 args).data.length
        = natProd (((L.dims.zip args).map sliceDim).map
            (fun d => d.values.length)) := by
      rw [ndSliceResult_data_length, slice_lens_eq L.dims args, hshape]
    have hre : npReshape (ndSliceResult p.2 args)
        (((L.dims.zip args).map sliceDim).map (fun d => d.values.length))
        = .ok ⟨((L.dims.zip args).map sliceDim).map (fun d => d.values.length),
            (ndSliceResult p.2 args).data⟩ := by
      unfold npReshape
      rw [if_pos hdata]
    refine ⟨{ Lacc with props := dictInsert Lacc.props p.1 (NDArray.mk (((L.dims.zip args).map sliceDim).map (fun d => d.values.length)) (ndSliceResult p.2 args).data) }, ?_, ?_, ?_, ?_⟩
    · rw [ndSlice_ok p.2 args hndlen hnds]
      show (pure _ : Except PyErr NDArray) >>= _ = _
      rw [pure_bind, htgt]
      show (do
        let reshaped ← npReshape (ndSliceResult p.2 args)
          (((L.dims.zip args).map sliceDim).map (fun (d : Dimension) => d.values.length))
        Lacc.setItem p.1 reshaped) = _
      rw [hre]
      show (pure _ : Except PyErr NDArray) >>= _ = _
      rw [pure_bind]
      exact setItem_ok_of (by rw [hP.2.2, hgsND]) rfl
    · show Lacc.dims_map = _
      exact hP.1
    · show Lacc.dims_ordering = _
      exact hP.2.1
    · show Lacc.grid_shape = _
      exact hP.2.2
  obtain ⟨L', hfold, hPfin⟩ := foldlM_ok_of_pres
    (fun acc p => do
      let sliced ← ndSlice p.2 args
      let target := ((initResult ((L.dims.zip args).map sliceDim)).dims.headD
        ⟨"", [], true, none, false⟩).gridArr.shape
      let reshaped ← npReshape sliced target
      acc.setItem p.1 reshaped)
    (fun L2 =>
      L2.dims_map = (initResult ((L.dims.zip args).map sliceDim)).dims_map ∧
      L2.dims_ordering
        = (initResult ((L.dims.zip args).map sliceDim)).dims_ordering ∧
      L2.grid_shape = (initResult ((L.dims.zip args).map sliceDim)).grid_shape)
    L.props (initResult ((L.dims.zip args).map sliceDim)) ⟨rfl, rfl, rfl⟩
    (fun Lacc p hP hp => hstep Lacc p hP hp)
  refine ⟨L', ?_, hPfin.1, hPfin.2.1, hPfin.2.2⟩
  unfold Library.getitemSlice
  rw [if_neg hc1, if_neg hc2, if_neg hc3,
    mapM_ok_of_forall (sliceStep_ok L args h hv)]
  show (pure _ : Except PyErr (List Dimension)) >>= _ = _
  rw [pure_bind, init_char _ hND1 hND2 hND3]
  show (pure _ : Except PyErr Library) >>= _ = _
  rw [pure_bind]
  exact hfold

theorem gridInvariant_transfer {L1 L2 : Library}
    (h1 : L2.dims_map = L1.dims_map) (h2 : L2.dims_ordering = L1.dims_ordering)
    (h3 : L2.grid_shape = L1.grid_shape) (hinv : L1.gridInvariant) :
    L2.gridInvariant := by
  have hdims : L2.dims = L1.dims := dims_of_parts h1 h2
  have hdimAt : ∀ i, L2.dimAt i = L1.dimAt i := fun i => by
    unfold Library.dimAt
    rw [hdims]
  intro i hi
  rw [hdims] at hi
  obtain ⟨g, hg1, hg2, hg3⟩ := hinv i hi
  refine ⟨g, ?_, ?_, ?_⟩
  · rw [hdimAt]
    exact hg1
  · rw [h3]
    exact hg2
  · intro js hl hb
    rw [hdims] at hl
    have hb2 : ∀ k, k < L1.dims.length
        → js.getD k 0 < (L1.dimAt k).values.length := by
      intro k hk
      have := hb k (by rw [hdims]; exact hk)
      rw [hdimAt] at this
      exact this
    rw [hdimAt]
    exact hg3 js hl hb2

theorem map_filter_swap {α β : Type} (f : α → β) (p : β → Bool) :
    ∀ (l : List α), (l.filter (fun a => p (f a))).map f = (l.map f).filter p := by
  intro l
  induction l with
  | nil => rfl
  | cons a as ih =>
    by_cases hpa : p (f a) = true
    · have h1 : (a :: as).filter (fun x => p (f x))
          = a :: as.filter (fun x => p (f x)) := by
        rw [List.filter_cons, if_pos hpa]
      have h2 : ((f a) :: as.map f).filter p = f a :: (as.map f).filter p := by
        rw [List.filter_cons, if_pos hpa]
      rw [h1, List.map_cons, List.map_cons, h2, ih]
    · have h1 : (a :: as).filter (fun x => p (f x))
          = as.filter (fun x => p (f x)) := by
        rw [List.filter_cons, if_neg hpa]
      have h2 : ((f a) :: as.map f).filter p = (as.map f).filter p := by
        rw [List.filter_cons, if_neg hpa]
      rw [h1, List.map_cons, h2, ih]

theorem wf_dims_len_pos (L : Library) (h : L.wf = true) :
    ∀ d ∈ L.dims, 1 ≤ d.values.length := by
  intro d hd
  have := (ctorOKb_parts (wf_dims_ctorOK L h d hd).1).1
  cases hv : d.values with
  | nil => exact absurd hv this
  | cons _ _ => simp

theorem squeeze_char (L : Library) (h : L.wf = true)
    (hbig : L.dims.filter (fun d => 1 < d.values.length) ≠ []) :
    ∃ L', Library.squeeze L = .ok (.lib L') ∧
      L'.dims_map = (initResult ((L.dims.filter
        (fun d => 1 < d.values.length)).map freeDim)).dims_map ∧
      L'.dims_ordering = (initResult ((L.dims.filter
        (fun d => 1 < d.values.length)).map freeDim)).dims_ordering ∧
      L'.grid_shape = (initResult ((L.dims.filter
        (fun d => 1 < d.values.length)).map freeDim)).grid_shape := by
  have hsub : ∀ d ∈ L.dims.filter (fun d => 1 < d.values.length), d ∈ L.dims :=
    fun d hd => (List.mem_filter.mp hd).1
  have hmk : ∀ d ∈ L.dims.filter (fun d => 1 < d.values.length),
      mkDimension d.name d.values d.structured false = .ok (freeDim d) :=
    fun d hd => mkDimension_ok false (wf_dims_ctorOK L h d (hsub d hd)).1
  have hND1 : (L.dims.filter (fun d => 1 < d.values.length)).map freeDim ≠ [] := by
    intro he
    exact hbig (List.map_eq_nil_iff.mp he)
  have hnamesf : ((L.dims.filter (fun d => 1 < d.values.length)).map freeDim).map
      Dimension.name
      = (L.dims.filter (fun d => 1 < d.values.length)).map Dimension.name := by
    rw [List.map_map]
    rfl
  have hND2 : (((L.dims.filter (fun d => 1 < d.values.length)).map freeDim).map
      Dimension.name).Nodup := by
    rw [hnamesf]
    refine List.Nodup.sublist ?_ (wf_dims_nodup_names L h)
    exact List.Sublist.map Dimension.name (List.filter_sublist L.dims)
  have hND3 : ∀ d ∈ (L.dims.filter (fun d => 1 < d.values.length)).map freeDim,
      d.ctorOKb = true ∧ d.structured = true := by
    intro d hd
    rw [List.mem_map] at hd
    obtain ⟨d0, hd0, rfl⟩ := hd
    have := wf_dims_ctorOK L h d0 (hsub d0 hd0)
    exact ⟨this.1, this.2⟩
  have hnempty : ¬(((L.dims.filter (fun d => 1 < d.values.length)).map
      freeDim).isEmpty = true) := by
    intro he
    cases hc : (L.dims.filter (fun d => 1 < d.values.length)).map freeDim with
    | nil => exact hND1 hc
    | cons _ _ =>
      rw [hc] at he
      simp at he
  have hlensq : ∀ p ∈ L.props, (npSqueeze p.2).shape
      = ((L.dims.filter (fun d => 1 < d.values.length)).map freeDim).map
          (fun d => d.values.length) := by
    intro p hp
    show p.2.shape.filter (fun n => decide (n ≠ 1)) = _
    rw [wf_prop_shape L h p hp]
    have hcomm := map_filter_swap (fun d : Dimension => d.values.length)
      (fun n => decide (n ≠ 1)) L.dims
    rw [← hcomm]
    have hfc : L.dims.filter (fun d => decide (d.values.length ≠ 1))
        = L.dims.filter (fun d => 1 < d.values.length) := by
      refine List.filter_congr ?_
      intro d hd
      have h1 := wf_dims_len_pos L h d hd
      simp only [decide_eq_true_eq, decide_eq_decide]
      omega
    rw [hfc, List.map_map]
    rfl
  have hstep : ∀ (Lacc : Library) (p : String × NDArray),
      (Lacc.dims_map = (initResult ((L.dims.filter
          (fun d => 1 < d.values.length)).map freeDim)).dims_map ∧
        Lacc.dims_ordering = (initResult ((L.dims.filter
          (fun d => 1 < d.values.length)).map freeDim)).dims_ordering ∧
        Lacc.grid_shape = (initResult ((L.dims.filter
          (fun d => 1 < d.values.length)).map freeDim)).grid_shape) →
      p ∈ L.props →
      ∃ L2, Lacc.setItem p.1 (npSqueeze p.2) = .ok L2 ∧
        (L2.dims_map = (initResult ((L.dims.filter
            (fun d => 1 < d.values.length)).map freeDim)).dims_map ∧
          L2.dims_ordering = (initResult ((L.dims.filter
            (fun d => 1 < d.values.length)).map freeDim)).dims_ordering ∧
          L2.grid_shape = (initResult ((L.dims.filter
            (fun d => 1 < d.values.length)).map freeDim)).grid_shape) := by
    intro Lacc p hP hp
    refine ⟨_, @setItem_ok_of Lacc (((L.dims.filter
      (fun d => 1 < d.values.length)).map freeDim).map
        (fun d => d.values.length)) p.1 (npSqueeze p.2)
        (by rw [hP.2.2]; rfl) (hlensq p hp),
      hP.1, hP.2.1, hP.2.2⟩
  obtain ⟨L', hfold, hPfin⟩ := foldlM_ok_of_pres
    (fun acc p => acc.setItem p.1 (npSqueeze p.2))
    (fun L2 =>
      L2.dims_map = (initResult ((L.dims.filter
        (fun d => 1 < d.values.length)).map freeDim)).dims_map ∧
      L2.dims_ordering = (initResult ((L.dims.filter
        (fun d => 1 < d.values.length)).map freeDim)).dims_ordering ∧
      L2.grid_shape = (initResult ((L.dims.filter
        (fun d => 1 < d.values.length)).map freeDim)).grid_shape)
    L.props
    (initResult ((L.dims.filter (fun d => 1 < d.values.length)).map freeDim))
    ⟨rfl, rfl, rfl⟩ (fun Lacc p hP hp => hstep Lacc p hP hp)
  refine ⟨L', ?_, hPfin.1, hPfin.2.1, hPfin.2.2⟩
  unfold Library.squeeze
  rw [mapM_ok_of_forall hmk]
  show (pure _ : Except PyErr (List Dimension)) >>= _ = _
  rw [pure_bind, if_neg hnempty, init_char _ hND1 hND2 hND3]
  show (pure _ : Except PyErr Library) >>= _ = _
  rw [pure_bind, hfold]
  show (pure _ : Except PyErr Library) >>= _ = _
  rw [pure_bind]
  rfl

/-! ### Store-model lemmas for deep copy -/

theorem store_read_append {st suf : Store} {r : Nat} (h : r < st.length) :
    (st ++ suf).read r = st.read r :=
  getD_append_lt [] st suf r h

theorem libraryInitRefDims_spec :
    ∀ (dims : List DimensionRef) (st : Store),
      (∀ d ∈ dims, d.values < st.length) →
      ∃ suf : Store,
        (libraryInitRefDims st dims).1 = st ++ suf ∧
        ((libraryInitRefDims st dims).2).length = dims.length ∧
        (∀ i, i < dims.length →
          ((libraryInitRefDims st dims).2.getD i ⟨"", 0, true⟩).name
            = (dims.getD i ⟨"", 0, true⟩).name ∧
          st.length ≤ ((libraryInitRefDims st dims).2.getD i ⟨"", 0, true⟩).values ∧
          ((libraryInitRefDims st dims).2.getD i ⟨"", 0, true⟩).values
            < (libraryInitRefDims st dims).1.length ∧
          (libraryInitRefDims st dims).1.read
              (((libraryInitRefDims st dims).2.getD i ⟨"", 0, true⟩).values)
            = st.read ((dims.getD i ⟨"", 0, true⟩).values)) := by
  intro dims
  induction dims with
  | nil =>
    intro st _
    refine ⟨[], ?_, rfl, ?_⟩
    · show st = st ++ []
      rw [List.append_nil]
    · intro i hi
      simp at hi
  | cons d rest ih =>
    intro st hv
    have hv1 : d.values < st.length := hv d (by simp)
    have hrest : ∀ x ∈ rest, x.values
        < (st ++ [st.read d.values]).length := by
      intro x hx
      have := hv x (by simp [hx])
      simp only [List.length_append, List.length_cons]
      omega
    obtain ⟨suf1, hst1, hlen1, hpt1⟩ := ih (st ++ [st.read d.values]) hrest
    refine ⟨[st.read d.values] ++ suf1, ?_, ?_, ?_⟩
    · show (libraryInitRefDims (st ++ [st.read d.values]) rest).1 = _
      rw [hst1, List.append_assoc]
    · show ((libraryInitRefDims (st ++ [st.read d.values]) rest).2).length + 1
        = rest.length + 1
      rw [hlen1]
    · intro i hi
      cases i with
      | zero =>
        refine ⟨rfl, ?_, ?_, ?_⟩
        · show st.length ≤ st.length
          exact Nat.le_refl _
        · show st.length < (libraryInitRefDims (st ++ [st.read d.values]) rest).1.length
          rw [hst1]
          simp only [List.length_append, List.length_cons]
          omega
        · show (libraryInitRefDims (st ++ [st.read d.values]) rest).1.read st.length
            = st.read d.values
          rw [hst1]
          have h1 : st.length < (st ++ [st.read d.values]).length := by
            simp
          rw [store_read_append h1]
          show (st ++ st.read d.values :: []).getD st.length [] = st.read d.values
          rw [getD_append_self]
      | succ j =>
        have hj : j < rest.length := by simpa using hi
        obtain ⟨hn, hge, hlt, hrd⟩ := hpt1 j hj
        refine ⟨hn, ?_, hlt, ?_⟩
        · calc st.length ≤ (st ++ [st.read d.values]).length := by simp
          _ ≤ _ := hge
        · show (libraryInitRefDims (st ++ [st.read d.values]) rest).1.read
              (((libraryInitRefDims (st ++ [st.read d.values]) rest).2.getD j
                ⟨"", 0, true⟩).values)
            = st.read ((rest.getD j ⟨"", 0, true⟩).values)
          rw [hrd]
          show (st ++ [st.read d.values]).read ((rest.getD j ⟨"", 0, true⟩).values)
            = st.read ((rest.getD j ⟨"", 0, true⟩).values)
          have hmem : rest.getD j ⟨"", 0, true⟩ ∈ rest := by
            rw [getD_eq_get_of_lt rest ⟨"", 0, true⟩ hj]
            exact List.get_mem rest _ hj
          exact store_read_append (hv _ (List.mem_cons.mpr (Or.inr hmem)))

theorem deepcopyPassA_spec :
    ∀ (dims : List DimensionRef) (st : Store),
      (∀ d ∈ dims, d.values < st.length) →
      ∃ suf : Store,
        (deepcopyPassA st dims).1 = st ++ suf ∧
        ((deepcopyPassA st dims).2).length = dims.length ∧
        (∀ i, i < dims.length →
          ((deepcopyPassA st dims).2.getD i ⟨"", 0, true⟩).name
            = (dims.getD i ⟨"", 0, true⟩).name ∧
          st.length ≤ ((deepcopyPassA st dims).2.getD i ⟨"", 0, true⟩).values ∧
          ((deepcopyPassA st dims).2.getD i ⟨"", 0, true⟩).values
            < (deepcopyPassA st dims).1.length ∧
          (deepcopyPassA st dims).1.read
              (((deepcopyPassA st dims).2.getD i ⟨"", 0, true⟩).values)
            = st.read ((dims.getD i ⟨"", 0, true⟩).values)) := by
  intro dims
  induction dims with
  | nil =>
    intro st _
    refine ⟨[], ?_, rfl, ?_⟩
    · show st = st ++ []
      rw [List.append_nil]
    · intro i hi
      simp at hi
  | cons d rest ih =>
    intro st hv
    have hv1 : d.values < st.length := hv d (by simp)
    have hst2len : (st ++ [st.read d.values]
        ++ [(st ++ [st.read d.values]).read st.length]).length
        = st.length + 2 := by
      simp
    have hrest : ∀ x ∈ rest, x.values < (st ++ [st.read d.values]
        ++ [(st ++ [st.read d.values]).read st.length]).length := by
      intro x hx
      have := hv x (by simp [hx])
      rw [hst2len]
      omega
    obtain ⟨suf1, hst1, hlen1, hpt1⟩ := ih
      (st ++ [st.read d.values] ++ [(st ++ [st.read d.values]).read st.length])
      hrest
    refine ⟨[st.read d.values]
      ++ ([(st ++ [st.read d.values]).read st.length] ++ suf1), ?_, ?_, ?_⟩
    · show (deepcopyPassA (st ++ [st.read d.values]
        ++ [(st ++ [st.read d.values]).read st.length]) rest).1 = _
      rw [hst1, List.append_assoc, List.append_assoc]
    · show ((deepcopyPassA (st ++ [st.read d.values]
        ++ [(st ++ [st.read d.values]).read st.length]) rest).2).length + 1
        = rest.length + 1
      rw [hlen1]
    · intro i hi
      cases i with
      | zero =>
        refine ⟨rfl, ?_, ?_, ?_⟩
        · show st.length ≤ (st ++ [st.read d.values]).length
          simp
        · show (st ++ [st.read d.values]).length
            < (deepcopyPassA (st ++ [st.read d.values]
                ++ [(st ++ [st.read d.values]).read st.length]) rest).1.length
          rw [hst1]
          simp only [List.length_append, List.length_cons, List.length_nil]
          omega
        · show (deepcopyPassA (st ++ [st.read d.values]
              ++ [(st ++ [st.read d.values]).read st.length]) rest).1.read
                ((st ++ [st.read d.values]).length)
            = st.read d.values
          rw [hst1]
          have hlt2 : (st ++ [st.read d.values]).length
              < (st ++ [st.read d.values]
                  ++ [(st ++ [st.read d.values]).read st.length]).length := by
            simp
          rw [store_read_append hlt2]
          show ((st ++ [st.read d.values])
            ++ ((st ++ [st.read d.values]).read st.length) :: []).getD
              (st ++ [st.read d.values]).length [] = st.read d.values
          rw [getD_append_self]
          show (st ++ st.read d.values :: []).getD st.length [] = st.read d.values
          rw [getD_append_self]
      | succ j =>
        have hj : j < rest.length := by simpa using hi
        obtain ⟨hn, hge, hlt, hrd⟩ := hpt1 j hj
        refine ⟨hn, ?_, hlt, ?_⟩
        · calc st.length
              ≤ (st ++ [st.read d.values]
                  ++ [(st ++ [st.read d.values]).read st.length]).length := by
                simp
          _ ≤ _ := hge
        · show (deepcopyPassA (st ++ [st.read d.values]
              ++ [(st ++ [st.read d.values]).read st.length]) rest).1.read
                (((deepcopyPassA (st ++ [st.read d.values]
                  ++ [(st ++ [st.read d.values]).read st.length]) rest).2.getD j
                    ⟨"", 0, true⟩).values)
            = st.read ((rest.getD j ⟨"", 0, true⟩).values)
          rw [hrd]
          have hmem : rest.getD j ⟨"", 0, true⟩ ∈ rest := by
            rw [getD_eq_get_of_lt rest ⟨"", 0, true⟩ hj]
            exact List.get_mem rest _ hj
          rw [List.append_assoc]
          exact store_read_append (hv _ (List.mem_cons.mpr (Or.inr hmem)))

theorem deepcopyRef_spec (st : Store) (dims : List DimensionRef)
    (hv : ∀ d ∈ dims, d.values < st.length) :
    ∃ suf : Store,
      (deepcopyRef st dims).1 = st ++ suf ∧
      ((deepcopyRef st dims).2).length = dims.length ∧
      (∀ i, i < dims.length →
        ((deepcopyRef st dims).2.getD i ⟨"", 0, true⟩).name
          = (dims.getD i ⟨"", 0, true⟩).name ∧
        st.length ≤ ((deepcopyRef st dims).2.getD i ⟨"", 0, true⟩).values ∧
        (deepcopyRef st dims).1.read
            (((deepcopyRef st dims).2.getD i ⟨"", 0, true⟩).values)
          = st.read ((dims.getD i ⟨"", 0, true⟩).values)) := by
  obtain ⟨sufA, hstA, hlenA, hptA⟩ := deepcopyPassA_spec dims st hv
  have hvA : ∀ d2 ∈ (deepcopyPassA st dims).2,
      d2.values < (deepcopyPassA st dims).1.length := by
    intro d2 hd2
    obtain ⟨idx, rfl⟩ := List.mem_iff_get.mp hd2
    have hi2 : (idx : Nat) < dims.length := by
      rw [← hlenA]
      exact idx.isLt
    have hb := (hptA idx hi2).2.2.1
    rw [getD_eq_get_of_lt _ ⟨"", 0, true⟩ idx.isLt] at hb
    exact hb
  obtain ⟨sufB, hstB, hlenB, hptB⟩ :=
    libraryInitRefDims_spec (deepcopyPassA st dims).2 (deepcopyPassA st dims).1
      hvA
  refine ⟨sufA ++ sufB, ?_, ?_, ?_⟩
  · show (libraryInitRefDims (deepcopyPassA st dims).1
      (deepcopyPassA st dims).2).1 = _
    rw [hstB, hstA, List.append_assoc]
  · show (libraryInitRefDims (deepcopyPassA st dims).1
      (deepcopyPassA st dims).2).2.length = _
    rw [hlenB, hlenA]
  · intro i hi
    have hiA : i < (deepcopyPassA st dims).2.length := by
      rw [hlenA]
      exact hi
    obtain ⟨hnB, hgeB, hltB, hrdB⟩ := hptB i hiA
    obtain ⟨hnA, hgeA, hltA, hrdA⟩ := hptA i hi
    refine ⟨?_, ?_, ?_⟩
    · show ((libraryInitRefDims (deepcopyPassA st dims).1
        (deepcopyPassA st dims).2).2.getD i ⟨"", 0, true⟩).name = _
      rw [hnB, hnA]
    · show st.length ≤ ((libraryInitRefDims (deepcopyPassA st dims).1
        (deepcopyPassA st dims).2).2.getD i ⟨"", 0, true⟩).values
      calc st.length ≤ (deepcopyPassA st dims).1.length := by
            rw [hstA]
            simp
      _ ≤ _ := hgeB
    · show (libraryInitRefDims (deepcopyPassA st dims).1
          (deepcopyPassA st dims).2).1.read
            (((libraryInitRefDims (deepcopyPassA st dims).1
              (deepcopyPassA st dims).2).2.getD i ⟨"", 0, true⟩).values)
        = st.read ((dims.getD i ⟨"", 0, true⟩).values)
      rw [hrdB, hrdA]

/-- Mutating a buffer not referenced by a set of references leaves every
read through those references unchanged. -/
theorem write_fresh_read {st : Store} {r r2 : Nat} {a : List Val}
    (hne : r ≠ r2) : (st.write r2 a).read r = st.read r :=
  getD_set_ne [] st r r2 a hne

/-! ### Final supporting lemmas for the claims -/

theorem lookup_dictInsert_self {α : Type} (k : String) (v : α) :
    ∀ (m : List (String × α)), lookupDict (dictInsert m k v) k = some v := by
  intro m
  induction m with
  | nil => simp [dictInsert, lookupDict]
  | cons p rest ih =>
    cases p with
    | mk k2 v2 =>
      by_cases hk : k2 = k
      · simp [dictInsert, hk, lookupDict]
      · simp [dictInsert, hk, lookupDict, ih]

theorem lookup_dictInsert_ne {α : Type} (k q : String) (v : α) (hne : k ≠ q) :
    ∀ (m : List (String × α)),
      lookupDict (dictInsert m k v) q = lookupDict m q := by
  intro m
  induction m with
  | nil => simp [dictInsert, lookupDict, hne]
  | cons p rest ih =>
    cases p with
    | mk k2 v2 =>
      by_cases hk : k2 = k
      · subst hk
        simp [dictInsert, lookupDict, hne]
      · by_cases hq : k2 = q
        · simp [dictInsert, hk, lookupDict, hq, Ne.symm hne]
        · simp [dictInsert, hk, lookupDict, hq, ih]

theorem lookup_dictErase_ne {α : Type} (k q : String) (hne : k ≠ q) :
    ∀ (m : List (String × α)),
      lookupDict (dictErase m k) q = lookupDict m q := by
  intro m
  induction m with
  | nil => rfl
  | cons p rest ih =>
    cases p with
    | mk k2 v2 =>
      by_cases hk : k2 = k
      · subst hk
        simp [dictErase, lookupDict, hne]
      · by_cases hq : k2 = q
        · simp [dictErase, hk, lookupDict, hq, Ne.symm hne]
        · simp [dictErase, hk, lookupDict, hq, ih]


/-- The state produced by removing a list of property names one at a time
(the mutation trail of `Library.remove`). -/
def eraseAllProps (L : Library) (names : List String) : Library :=
  names.foldl (fun acc n => { acc with props := dictErase acc.props n }) L

theorem eraseAllProps_nil (L : Library) : eraseAllProps L [] = L := rfl

theorem removeRun_all_present :
    ∀ (names : List String) (L : Library), names.Nodup →
      (∀ n ∈ names, (lookupDict L.props n).isSome = true) →
      L.removeRun names = (eraseAllProps L names, none) := by
  intro names
  induction names with
  | nil => intro L _ _; rfl
  | cons n rest ih =>
    intro L hnd hpres
    have hn := hpres n (by simp)
    cases hlook : lookupDict L.props n with
    | none =>
      rw [hlook] at hn
      simp at hn
    | some v =>
      have hstep : L.removeRun (n :: rest)
          = Library.removeRun { L with props := dictErase L.props n } rest := by
        show (match lookupDict L.props n with
          | none => (L, some PyErr.keyError)
          | some _ => Library.removeRun
              { L with props := dictErase L.props n } rest) = _
        rw [hlook]
      have hrest : ∀ m ∈ rest,
          (lookupDict ({ L with props := dictErase L.props n } : Library).props
            m).isSome = true := by
        intro m hm
        have hne : n ≠ m := by
          intro he
          exact (List.nodup_cons.mp hnd).1 (he ▸ hm)
        show (lookupDict (dictErase L.props n) m).isSome = true
        rw [lookup_dictErase_ne n m hne]
        exact hpres m (by simp [hm])
      rw [hstep, ih _ (List.nodup_cons.mp hnd).2 hrest]
      rfl

theorem removeRun_first_missing :
    ∀ (pre : List String) (L : Library) (m : String) (post : List String),
      pre.Nodup →
      (∀ n ∈ pre, (lookupDict L.props n).isSome = true) →
      lookupDict (eraseAllProps L pre).props m = none →
      L.removeRun (pre ++ m :: post) = (eraseAllProps L pre, some PyErr.keyError) := by
  intro pre
  induction pre with
  | nil =>
    intro L m post _ _ hmiss
    have hmiss2 : lookupDict L.props m = none := hmiss
    show Library.removeRun L (m :: post) = (L, some PyErr.keyError)
    unfold Library.removeRun
    rw [hmiss2]
  | cons n rest ih =>
    intro L m post hnd hpres hmiss
    have hn := hpres n (by simp)
    cases hlook : lookupDict L.props n with
    | none =>
      rw [hlook] at hn
      simp at hn
    | some v =>
      have hstep : L.removeRun ((n :: rest) ++ m :: post)
          = Library.removeRun { L with props := dictErase L.props n }
              (rest ++ m :: post) := by
        show (match lookupDict L.props n with
          | none => (L, some PyErr.keyError)
          | some _ => Library.removeRun
              { L with props := dictErase L.props n } (rest ++ m :: post)) = _
        rw [hlook]
      rw [hstep]
      have hrest : ∀ x ∈ rest,
          (lookupDict ({ L with props := dictErase L.props n } : Library).props
            x).isSome = true := by
        intro x hx
        have hne : n ≠ x := by
          intro he
          exact (List.nodup_cons.mp hnd).1 (he ▸ hx)
        show (lookupDict (dictErase L.props n) x).isSome = true
        rw [lookup_dictErase_ne n x hne]
        exact hpres x (by simp [hx])
      rw [ih _ m post (List.nodup_cons.mp hnd).2 hrest hmiss]
      rfl

theorem mkDimension_owned_inv {name : String} {vs : List Val} {st owned : Bool}
    {d : Dimension} (h : mkDimension name vs st owned = .ok d) :
    d.libraryOwned = owned ∧ d.grid = none ∧ d.name = name ∧ d.values = vs ∧
      d.structured = st := by
  unfold mkDimension at h
  split at h
  · exact absurd h (by simp)
  · split at h
    · exact absurd h (by simp)
    · split at h
      · exact absurd h (by simp)
      · have hd := (Except.ok.inj h).symm
        rw [hd]
        refine ⟨?_, rfl, rfl, rfl, rfl⟩
        exact Bool.false_or owned

theorem zip_getD_eq {α β : Type} (da : α) (db : β) (l : List α) (r : List β)
    (i : Nat) (h1 : i < l.length) (h2 : i < r.length) :
    (l.zip r).getD i (da, db) = (l.getD i da, r.getD i db) := by
  rw [List.getD_eq_getElem?_getD, zip_getElem?_eq da db l r i h1 h2]
  rfl

theorem getD_mem_of_lt {α : Type} (l : List α) (d : α) {i : Nat}
    (h : i < l.length) : l.getD i d ∈ l := by
  rw [getD_eq_get_of_lt l d h]
  exact List.get_mem l _ h

/-! ### Concrete sample data used by witnesses and counterexamples -/

/-- The empty `Library()` state (used as a fallback only). -/
def emptyLib : Library := ⟨[], [], [], true, none, []⟩

/-- A structured dimension `x` with values `[0, 1]`. -/
def dimX : Dimension := ⟨"x", [0, 1], true, none, false⟩

/-- A structured dimension `y` with values `[10, 20, 30]`. -/
def dimY : Dimension := ⟨"y", [10, 20, 30], true, none, false⟩

/-- A second structured dimension also named `x`. -/
def dimXdup : Dimension := ⟨"x", [10, 20, 30], true, none, false⟩

/-- A wellformed 2x3 sample library with one property and one extra
attribute. -/
def sampleLib : Library :=
  ((do
    let L ← Library.init [dimX, dimY]
    let L2 ← L.setItem "p" ⟨[2, 3], [1, 2, 3, 4, 5, 6]⟩
    pure (L2.addExtra "note" 7)) : Except PyErr Library).toOption.getD emptyLib

/-- A one-point sample library (one length-1 dimension, one property). -/
def pointLib : Library :=
  ((do
    let L ← Library.init [⟨"x", [5], true, none, false⟩]
    L.setItem "p" ⟨[1], [7]⟩) : Except PyErr Library).toOption.getD emptyLib

/-- A sample buffer store holding one dimension-values buffer. -/
def store1 : Store := [[0, 1]]

/-- A reference-model dimension whose values live in `store1` slot 0. -/
def refDims1 : List DimensionRef := [⟨"x", 0, true⟩]

/-! ### The claims -/

/-- C1.  The claim quantifies over every Library constructed from
structured Dimensions D1..Dn.  It fails when two of the dimensions share a
name: `Library.__init__` keys its `_dims` dict by name (line 144), so the
later dimension silently overwrites the earlier one while the ordering
table still records both positions, and the grid is derived from the
deduplicated dict.  Concretely, two structured dimensions both named `x`
with 2 and 3 values construct a Library whose shape is `(3,)`, not
`(2, 3)`. -/
theorem C1_counterexample :
    mkDimension "x" [0, 1] true false = .ok dimX ∧
    mkDimension "x" [10, 20, 30] true false = .ok dimXdup ∧
    (Library.init [dimX, dimXdup]).map (fun L => L.shapeOf)
      = .ok (some [3]) ∧
    dimX.values.length = 2 ∧ dimXdup.values.length = 3 ∧
    some [3] ≠ some [dimX.values.length, dimXdup.values.length] := by
  refine ⟨by decide, by decide, by decide, by decide, by decide, by decide⟩

/-- C1 (amended: the dimension names are pairwise distinct).  For every
non-empty list of constructible structured Dimensions with pairwise
distinct names, construction succeeds, the Library's shape is the tuple of
the dimensions' value counts, and dimension i's values vary along axis i
of every broadcast grid array: the grid of dimension i has the library's
grid shape and its entry at multi-index `js` is `valuesᵢ[jsᵢ]`. -/
theorem C1_shape_of_distinct_names (ds : List Dimension)
    (h1 : ds ≠ []) (h2 : (ds.map Dimension.name).Nodup)
    (h3 : ∀ d ∈ ds, d.ctorOKb = true ∧ d.structured = true) :
    ∃ L, Library.init ds = .ok L ∧
      L.shapeOf = some (ds.map (fun d => d.values.length)) ∧
      L.gridInvariant :=
  ⟨initResult ds, init_char ds h1 h2 h3, initResult_shapeOf ds h1 h2,
    initResult_gridInvariant ds h2⟩

/-- Witness for C1: the amended theorem applied at the concrete dimensions
`x = [0, 1]`, `y = [10, 20, 30]`. -/
theorem C1_shape_witness :
    ([dimX, dimY] ≠ [] ∧ (([dimX, dimY]).map Dimension.name).Nodup ∧
      ∀ d ∈ [dimX, dimY], d.ctorOKb = true ∧ d.structured = true) ∧
    (∃ L, Library.init [dimX, dimY] = .ok L ∧
      L.shapeOf = some [2, 3] ∧ L.gridInvariant) :=
  ⟨⟨by decide, by decide, by decide⟩,
    C1_shape_of_distinct_names [dimX, dimY] (by decide) (by decide) (by decide)⟩

/-- C2.  The claim quantifies over every Library.  It fails for a Library
built from two dimensions sharing one name: `__getstate__` stores the
dimension definitions in a name-keyed mapping (one entry) while the
ordering table keeps both positions, so `__setstate__` raises IndexError
at `ordered_dims[1]` (line 198) instead of reproducing the library. -/
theorem C2_counterexample :
    (Library.init [dimX, dimXdup]).toOption.isSome = true ∧
    (do
      let L ← Library.init [dimX, dimXdup]
      Library.load_from_file (Library.save L)) = .error PyErr.indexError := by
  refine ⟨by decide, by decide⟩

/-- C2 (amended: the Library's dimension names are pairwise distinct, as
the data model's uniqueness invariant demands).  Saving a wellformed
Library and loading the result yields an equivalent Library - same
dimension names, order and values, same property arrays, same extra
attributes - and feeding `load` the same capture as a legacy plain mapping
yields the same library. -/
theorem C2_roundtrip_of_wf (L : Library) (h : L.wf = true) :
    ∃ L2, Library.load_from_file (Library.save L) = .ok L2 ∧
      L.equiv L2 ∧
      Library.load_from_file (PickleBlob.legacyDict L.getstate) = .ok L2 :=
  ⟨setstateResult L, setstate_getstate L h, setstateResult_equiv L h,
    setstate_getstate L h⟩

/-- Witness for C2: the amended round-trip applied to the concrete 2x3
sample library with a property and an extra attribute. -/
theorem C2_roundtrip_witness :
    sampleLib.wf = true ∧
    (∃ L2, Library.load_from_file (Library.save sampleLib) = .ok L2 ∧
      sampleLib.equiv L2 ∧
      Library.load_from_file (PickleBlob.legacyDict sampleLib.getstate)
        = .ok L2) :=
  ⟨by decide, C2_roundtrip_of_wf sampleLib (by decide)⟩

/-- C3.  For every wellformed structured n-dimensional Library and every
valid slice specification of length n, slicing succeeds and the sliced
Library has exactly n dimensions; an axis whose component is an integer
index - which numpy collapses to a scalar - is rewrapped into a length-1
values array (line 359).  The embedding is pure: `__getitem__` only
builds new objects (lines 356-365), so the source Library term is
untouched by construction. -/
theorem C3_slice_preserves_dim_count (L : Library) (args : List SliceArg)
    (h : L.wf = true) (hv : validSpec L args = true) :
    ∃ L2, L.getitemSlice args = .ok L2 ∧
      L2.dims.length = L.dims.length ∧
      ∀ i j, i < args.length →
        args.getD i (SliceArg.slc none none) = SliceArg.idx j →
        (L2.dimAt i).values.length = 1 := by
  obtain ⟨L2, hok, hdm, hdo, hgs⟩ := getitemSlice_char L args h hv
  obtain ⟨hlen, hvsel⟩ := validSpec_facts L args hv
  have hziplen : (L.dims.zip args).length = L.dims.length :=
    zip_length_eq _ _ hlen.symm
  have hNDlen : ((L.dims.zip args).map sliceDim).length = L.dims.length := by
    rw [List.length_map, hziplen]
  have hnames : ((L.dims.zip args).map sliceDim).map Dimension.name
      = L.dims.map Dimension.name := by
    rw [List.map_map]
    have hmm : (L.dims.zip args).map (Dimension.name ∘ sliceDim)
        = ((L.dims.zip args).map (fun p => p.1)).map Dimension.name := by
      rw [List.map_map]
      rfl
    rw [hmm, zip_map_fst_eq L.dims args hlen.symm]
  have hND2 : (((L.dims.zip args).map sliceDim).map Dimension.name).Nodup := by
    rw [hnames]
    exact wf_dims_nodup_names L h
  have hdimseq : L2.dims = (initResult ((L.dims.zip args).map sliceDim)).dims :=
    dims_of_parts hdm hdo
  refine ⟨L2, hok, ?_, ?_⟩
  · rw [hdimseq, initResult_dims_length _ hND2, hNDlen]
  · intro i j hi hidx
    have hiL : i < L.dims.length := by rw [← hlen]; exact hi
    have hiND : i < ((L.dims.zip args).map sliceDim).length := by
      rw [hNDlen]
      exact hiL
    have hdimAt : L2.dimAt i
        = (initResult ((L.dims.zip args).map sliceDim)).dimAt i := by
      unfold Library.dimAt
      rw [hdimseq]
    rw [hdimAt, initResult_dimAt _ hND2 hiND]
    show (((L.dims.zip args).map sliceDim).getD i
      ⟨"", [], true, none, false⟩).values.length = 1
    rw [getD_map_of_lt sliceDim _ i ⟨"", [], true, none, false⟩
      (⟨"", [], true, none, false⟩, SliceArg.slc none none) (by rw [hziplen]; exact hiL)]
    rw [zip_getD_eq ⟨"", [], true, none, false⟩ (SliceArg.slc none none)
      L.dims args i hiL hi]
    show (selValsOf (L.dims.getD i ⟨"", [], true, none, false⟩).values
      (args.getD i (SliceArg.slc none none))).length = 1
    rw [hidx]
    have hq : ((L.dims.getD i ⟨"", [], true, none, false⟩).values.length,
        SliceArg.idx j) ∈ (L.dims.map (fun d => d.values.length)).zip args := by
      have hql : ((L.dims.map (fun d => d.values.length)).zip args).getD i
          (0, SliceArg.slc none none)
          = ((L.dims.getD i ⟨"", [], true, none, false⟩).values.length,
            SliceArg.idx j) := by
        rw [zip_getD_eq 0 (SliceArg.slc none none) _ args i
          (by rw [List.length_map]; exact hiL) hi]
        rw [getD_map_of_lt (fun d : Dimension => d.values.length) _ i 0
          ⟨"", [], true, none, false⟩ hiL, hidx]
      rw [← hql]
      refine getD_mem_of_lt _ _ ?_
      rw [zip_length_eq _ _ (by rw [List.length_map]; exact hlen.symm),
        List.length_map]
      exact hiL
    obtain ⟨hsel, _⟩ := hvsel _ hq
    obtain ⟨j2, hj2, _⟩ := selOf_idx_cases hsel
    unfold selValsOf
    rw [List.length_map]
    show (selD ((L.dims.getD i ⟨"", [], true, none, false⟩).values.length,
      SliceArg.idx j)).length = 1
    rw [hj2]
    rfl

/-- Witness for C3: slicing the 2x3 sample library with `[1, :]`. -/
theorem C3_slice_witness :
    sampleLib.wf = true ∧
    validSpec sampleLib [SliceArg.idx 1, SliceArg.slc none none] = true ∧
    (∃ L2, sampleLib.getitemSlice [SliceArg.idx 1, SliceArg.slc none none]
        = .ok L2 ∧
      L2.dims.length = sampleLib.dims.length ∧
      ∀ i j, i < ([SliceArg.idx 1, SliceArg.slc none none] : List SliceArg).length →
        ([SliceArg.idx 1, SliceArg.slc none none] : List SliceArg).getD i
          (SliceArg.slc none none) = SliceArg.idx j →
        (L2.dimAt i).values.length = 1) :=
  ⟨by decide, by decide,
    C3_slice_preserves_dim_count sampleLib
      [SliceArg.idx 1, SliceArg.slc none none] (by decide) (by decide)⟩

/-- C4.  `Library.squeeze`'s own docstring (lines 311-313) promises the
all-dimensions-removed fallback
`{'dimensions': {name: value...}, 'properties': {prop: value...}}`, but
lines 320-321 store the squeezed PROPERTY arrays under the `'dimensions'`
key and the squeezed dimension VALUES under the `'properties'` key.  On a
one-point library with dimension `x = [5]` and property `p = [7]`, the
returned record's `dimensions` field holds `{p: 7}` and its `properties`
field holds `{x: 5}` - the two mappings are swapped relative to both the
docstring and the claim. -/
theorem C4_squeeze_swaps_scalar_mappings :
    Library.squeeze pointLib
      = .ok (SqueezeResult.scalars [("p", ⟨[], [7]⟩)] [("x", ⟨[], [5]⟩)]) ∧
    pointLib.dims.map Dimension.name = ["x"] ∧
    pointLib.props.map Prod.fst = ["p"] := by
  refine ⟨by decide, by decide, by decide⟩

/-- C5.  The claim demands that a deep copy equal its source in its extra
attributes as well; but `Library.__deepcopy__` (lines 287-295) rebuilds
the library without ever touching `_extra_attributes`, so the copy's
extra-attribute mapping is empty whenever the source's is not. -/
theorem C5_counterexample :
    sampleLib.extra_attributes = [("note", 7)] ∧
    (sampleLib.deepcopyV).map (fun L2 => L2.extra_attributes) = .ok [] ∧
    ([] : List (String × Val)) ≠ [("note", 7)] := by
  refine ⟨by decide, by decide, by decide⟩

/-- C5 (amended: the copy equals the source in dimensions and properties
and shares no storage, but its extra attributes are empty rather than
equal to the source's).  Value level: for every wellformed Library the
deep copy succeeds and agrees on dimension names, order and values and on
the property mapping, with empty extra attributes.  Store level: the
copy's dimension-values buffers are freshly allocated with the same
contents, and writing through any of the copy's buffers leaves every
buffer of the source unchanged. -/
theorem C5_deepcopy_amended :
    (∀ L : Library, L.wf = true →
      ∃ L2, L.deepcopyV = .ok L2 ∧
        L2.dims.map Dimension.name = L.dims.map Dimension.name ∧
        L2.dims.map Dimension.values = L.dims.map Dimension.values ∧
        L2.props = L.props ∧
        L2.extra_attributes = []) ∧
    (∀ (st : Store) (dims : List DimensionRef),
      (∀ d ∈ dims, d.values < st.length) →
      ((deepcopyRef st dims).2.length = dims.length ∧
        (∀ i, i < dims.length →
          ((deepcopyRef st dims).2.getD i ⟨"", 0, true⟩).name
            = (dims.getD i ⟨"", 0, true⟩).name ∧
          (deepcopyRef st dims).1.read
              (((deepcopyRef st dims).2.getD i ⟨"", 0, true⟩).values)
            = st.read ((dims.getD i ⟨"", 0, true⟩).values)) ∧
        (∀ r2 ∈ (deepcopyRef st dims).2.map DimensionRef.values,
          ∀ (a : List Val) (i : Nat), i < dims.length →
            (((deepcopyRef st dims).1.write r2 a)).read
                ((dims.getD i ⟨"", 0, true⟩).values)
              = st.read ((dims.getD i ⟨"", 0, true⟩).values)))) := by
  constructor
  · intro L h
    refine ⟨{ initResult (L.dims.map freeDim) with props := L.props },
      deepcopyV_char L h, ?_, ?_, rfl, rfl⟩
    · have hnd : ((L.dims.map freeDim).map Dimension.name).Nodup := by
        rw [List.map_map]
        exact wf_dims_nodup_names L h
      have hdeq : ({ initResult (L.dims.map freeDim) with
          props := L.props } : Library).dims
          = (initResult (L.dims.map freeDim)).dims := rfl
      rw [hdeq, initResult_dims_names _ hnd, List.map_map]
      rfl
    · have hnd : ((L.dims.map freeDim).map Dimension.name).Nodup := by
        rw [List.map_map]
        exact wf_dims_nodup_names L h
      have hdeq : ({ initResult (L.dims.map freeDim) with
          props := L.props } : Library).dims
          = (initResult (L.dims.map freeDim)).dims := rfl
      rw [hdeq, initResult_dims_values _ hnd, List.map_map]
      rfl
  · intro st dims hv
    obtain ⟨suf, hst, hlen, hpt⟩ := deepcopyRef_spec st dims hv
    refine ⟨hlen, ?_, ?_⟩
    · intro i hi
      exact ⟨(hpt i hi).1, (hpt i hi).2.2⟩
    · intro r2 hr2 a i hi
      have hsrc_lt : (dims.getD i ⟨"", 0, true⟩).values < st.length :=
        hv _ (getD_mem_of_lt dims ⟨"", 0, true⟩ hi)
      have hr2ge : st.length ≤ r2 := by
        rw [List.mem_map] at hr2
        obtain ⟨d2, hd2, rfl⟩ := hr2
        obtain ⟨idx, rfl⟩ := List.mem_iff_get.mp hd2
        have hidx : (idx : Nat) < dims.length := by
          rw [← hlen]
          exact idx.isLt
        have := (hpt idx hidx).2.1
        rw [getD_eq_get_of_lt _ ⟨"", 0, true⟩ idx.isLt] at this
        exact this
      have hne : (dims.getD i ⟨"", 0, true⟩).values ≠ r2 := by omega
      rw [write_fresh_read hne, hst,
        store_read_append hsrc_lt]

/-- Witness for C5: the amended theorem applied to the 2x3 sample library
(value level) and to a one-buffer store (store level). -/
theorem C5_deepcopy_witness :
    sampleLib.wf = true ∧
    (∀ d ∈ refDims1, d.values < store1.length) ∧
    (∃ L2, sampleLib.deepcopyV = .ok L2 ∧
      L2.dims.map Dimension.name = sampleLib.dims.map Dimension.name ∧
      L2.dims.map Dimension.values = sampleLib.dims.map Dimension.values ∧
      L2.props = sampleLib.props ∧
      L2.extra_attributes = []) ∧
    ((deepcopyRef store1 refDims1).2.length = refDims1.length ∧
      (∀ i, i < refDims1.length →
        ((deepcopyRef store1 refDims1).2.getD i ⟨"", 0, true⟩).name
          = (refDims1.getD i ⟨"", 0, true⟩).name ∧
        (deepcopyRef store1 refDims1).1.read
            (((deepcopyRef store1 refDims1).2.getD i ⟨"", 0, true⟩).values)
          = store1.read ((refDims1.getD i ⟨"", 0, true⟩).values)) ∧
      (∀ r2 ∈ (deepcopyRef store1 refDims1).2.map DimensionRef.values,
        ∀ (a : List Val) (i : Nat), i < refDims1.length →
          (((deepcopyRef store1 refDims1).1.write r2 a)).read
              ((refDims1.getD i ⟨"", 0, true⟩).values)
            = store1.read ((refDims1.getD i ⟨"", 0, true⟩).values))) :=
  ⟨by decide, by decide,
    C5_deepcopy_amended.1 sampleLib (by decide),
    C5_deepcopy_amended.2 store1 refDims1 (by decide)⟩

/-- C6.  `Library.__setitem__` (lines 328-334) compares the incoming
array's shape with the grid shape before any mutation: a mismatch raises
`ValueError` (the spec's ShapeMismatchError) and leaves the property
mapping - indeed the entire library state - untouched; a match stores a
private copy under the name, silently overwriting an existing binding in
place and leaving every other binding readable unchanged. -/
theorem C6_setitem_shape_check (L : Library) (gs : List Nat) (q : String)
    (v : NDArray) (h : L.grid_shape = some gs) :
    (v.shape ≠ gs → L.setItemRun q v = (L, some PyErr.valueError)) ∧
    (v.shape = gs →
      L.setItemRun q v = ({ L with props := dictInsert L.props q v }, none) ∧
      lookupDict (dictInsert L.props q v) q = some v ∧
      ∀ q2, q2 ≠ q →
        lookupDict (dictInsert L.props q v) q2 = lookupDict L.props q2) := by
  constructor
  · intro hne
    exact setItemRun_mismatch h hne
  · intro heq
    refine ⟨setItemRun_ok h heq, lookup_dictInsert_self q v L.props, ?_⟩
    intro q2 hq2
    exact lookup_dictInsert_ne q q2 v (fun he => hq2 he.symm) L.props

/-- Witness for C6: a wrong-shape and a right-shape assignment on the 2x3
sample library. -/
theorem C6_setitem_witness :
    sampleLib.grid_shape = some [2, 3] ∧
    ((NDArray.mk [2, 2] [1, 2, 3, 4]).shape ≠ [2, 3] →
      sampleLib.setItemRun "bad" ⟨[2, 2], [1, 2, 3, 4]⟩
        = (sampleLib, some PyErr.valueError)) ∧
    ((NDArray.mk [2, 2] [1, 2, 3, 4]).shape = [2, 3] →
      sampleLib.setItemRun "bad" ⟨[2, 2], [1, 2, 3, 4]⟩
        = ({ sampleLib with
            props := dictInsert sampleLib.props "bad"
              (NDArray.mk [2, 2] [1, 2, 3, 4]) }, none) ∧
      lookupDict (dictInsert sampleLib.props "bad" ⟨[2, 2], [1, 2, 3, 4]⟩)
        "bad" = some ⟨[2, 2], [1, 2, 3, 4]⟩ ∧
      ∀ q2, q2 ≠ "bad" →
        lookupDict (dictInsert sampleLib.props "bad" ⟨[2, 2], [1, 2, 3, 4]⟩)
          q2 = lookupDict sampleLib.props q2) :=
  ⟨by decide, (C6_setitem_shape_check sampleLib [2, 3] "bad"
      ⟨[2, 2], [1, 2, 3, 4]⟩ (by decide)).1,
    (C6_setitem_shape_check sampleLib [2, 3] "bad"
      ⟨[2, 2], [1, 2, 3, 4]⟩ (by decide)).2⟩

/-- C7.  The claim demands atomicity: a removal list containing a missing
name must remove nothing.  But `Library.remove` (lines 411-414) pops the
names one at a time, so `remove("p", "missing")` on the sample library
first deletes `p` and only then raises KeyError: the error is raised, yet
`p` is already gone. -/
theorem C7_counterexample :
    (lookupDict sampleLib.props "p").isSome = true ∧
    sampleLib.removeRun ["p", "missing"]
      = ({ sampleLib with props := [] }, some PyErr.keyError) ∧
    ({ sampleLib with props := [] } : Library).props = [] := by
  refine ⟨by decide, by decide, by decide⟩

/-- C7 (amended: removal is sequential, not atomic).  If every requested
name is present (and the request list has no duplicates) `remove` deletes
them all and raises nothing; if a name is missing, `remove` raises
KeyError (a `LookupError`) at the first missing name, with the names
before it already removed and the rest untouched - there is no
validate-then-mutate atomicity. -/
theorem C7_remove_sequential :
    (∀ (L : Library) (names : List String), names.Nodup →
      (∀ n ∈ names, (lookupDict L.props n).isSome = true) →
      L.removeRun names = (eraseAllProps L names, none)) ∧
    (∀ (L : Library) (pre : List String) (m : String) (post : List String),
      pre.Nodup →
      (∀ n ∈ pre, (lookupDict L.props n).isSome = true) →
      lookupDict (eraseAllProps L pre).props m = none →
      L.removeRun (pre ++ m :: post)
        = (eraseAllProps L pre, some PyErr.keyError)) :=
  ⟨fun L names hnd hpres => removeRun_all_present names L hnd hpres,
    fun L pre m post hnd hpres hmiss =>
      removeRun_first_missing pre L m post hnd hpres hmiss⟩

/-- Witness for C7: complete removal of `p`, and the partial trail of
`remove("p", "missing")`, on the sample library. -/
theorem C7_remove_witness :
    (["p"] : List String).Nodup ∧
    (∀ n ∈ (["p"] : List String),
      (lookupDict sampleLib.props n).isSome = true) ∧
    lookupDict (eraseAllProps sampleLib ["p"]).props "missing" = none ∧
    sampleLib.removeRun ["p"] = (eraseAllProps sampleLib ["p"], none) ∧
    sampleLib.removeRun (["p"] ++ "missing" :: [])
      = (eraseAllProps sampleLib ["p"], some PyErr.keyError) :=
  ⟨by decide, by decide, by decide,
    C7_remove_sequential.1 sampleLib ["p"] (by decide) (by decide),
    C7_remove_sequential.2 sampleLib ["p"] "missing" [] (by decide)
      (by decide) (by decide)⟩

/-- Two unstructured dimensions of unequal value counts, the exact case
the claim says must fail with ConstructionError. -/
def uDimA : Dimension := ⟨"a", [0, 1], false, none, false⟩

def uDimB : Dimension := ⟨"b", [0, 1, 2], false, none, false⟩

/-- C8 (code bug).  The claim says unstructured construction with
inconsistent grid shapes fails with ConstructionError (modelled
`ValueError`).  In the code, line 163 evaluates
`next(self._dims.keys())` on a `dict_keys` view, which is not an
iterator, so every non-empty unstructured construction - shapes
consistent or not - raises `TypeError` before the intended `ValueError`
checks of lines 165-169 can run: those checks are dead code. -/
theorem C8_unstructured_construction_TypeError (ds : List Dimension)
    (h1 : ds ≠ []) (h2 : (ds.map Dimension.name).Nodup)
    (h3 : ∀ d ∈ ds, d.ctorOKb = true ∧ d.structured = false) :
    Library.init ds = .error PyErr.typeError ∧
    PyErr.typeError ≠ PyErr.valueError := by
  refine ⟨?_, by decide⟩
  have hfold := initFold_char ds [] (fun d hd => (h3 d hd).1) (by simpa using h2)
  simp only [Library.init]
  rw [hfold]
  show (pure (([] : List (String × Dimension)) ++ _) : Except PyErr _) >>= _ = _
  rw [pure_bind]
  simp only [List.nil_append]
  have hstruct : (ds.map (fun d => (d.name, rawOwned d))).all
      (fun p => p.2.structured) = false := by
    cases ds with
    | nil => exact absurd rfl h1
    | cons d rest =>
      simp only [List.map_cons, List.all_cons, rawOwned]
      rw [(h3 d (List.mem_cons_self d rest)).2, Bool.false_and]
  have hunstruct : (ds.map (fun d => (d.name, rawOwned d))).all
      (fun p => !p.2.structured) = true := by
    rw [List.all_eq_true]
    intro p hp
    rw [List.mem_map] at hp
    obtain ⟨d, hd, rfl⟩ := hp
    show (!(rawOwned d).structured) = true
    rw [show (rawOwned d).structured = d.structured from rfl, (h3 d hd).2]
    rfl
  have hne : ds.length ≠ 0 := by
    cases ds with
    | nil => exact absurd rfl h1
    | cons _ _ => simp
  rw [hstruct, hunstruct]
  simp only [Bool.not_false, Bool.not_true, Bool.true_and, Bool.and_false,
    Bool.false_eq_true, if_false]
  rw [if_pos hne]

/-- Witness for C8: two unstructured dimensions with 2 and 3 values. -/
theorem C8_unstructured_witness :
    (([uDimA, uDimB] : List Dimension) ≠ [] ∧
      (([uDimA, uDimB]).map Dimension.name).Nodup ∧
      ∀ d ∈ [uDimA, uDimB], d.ctorOKb = true ∧ d.structured = false) ∧
    (Library.init [uDimA, uDimB] = .error PyErr.typeError ∧
      PyErr.typeError ≠ PyErr.valueError) :=
  ⟨⟨by decide, by decide, by decide⟩,
    C8_unstructured_construction_TypeError [uDimA, uDimB] (by decide)
      (by decide) (by decide)⟩

/-- C9.  The `Dimension.grid` setter (lines 104-112) is gated on the
private `_library_owned` flag: on a freely constructed Dimension
(`_library_owned=False`, as `mkDimension`'s public path always produces)
it raises `ValueError` (the spec's UnsupportedOperationError) and leaves
the instance unchanged, while a library-owned private copy accepts the
grid - which is exactly what `Library.__init__` does at incorporation. -/
theorem C9_grid_setter_owner_only :
    (∀ (d : Dimension) (g : NDArray), d.libraryOwned = false →
      d.gridSetterRun g = (d, some PyErr.valueError)) ∧
    (∀ (name : String) (vs : List Val) (st : Bool) (d : Dimension),
      mkDimension name vs st false = .ok d → d.libraryOwned = false) ∧
    (∀ (d : Dimension) (g : NDArray), d.libraryOwned = true →
      d.gridSetterRun g = ({ d with grid := some g }, none)) := by
  refine ⟨?_, ?_, ?_⟩
  · intro d g hown
    unfold Dimension.gridSetterRun
    rw [hown]
    rfl
  · intro name vs st d h
    exact (mkDimension_owned_inv h).1
  · intro d g hown
    unfold Dimension.gridSetterRun
    rw [hown]
    rfl

/-- Witness for C9: the free dimension `x = [0, 1]` rejects a grid and is
unchanged; its library-owned private copy accepts one. -/
theorem C9_grid_witness :
    dimX.libraryOwned = false ∧
    mkDimension "x" [0, 1] true false = Except.ok dimX ∧
    (rawOwned dimX).libraryOwned = true ∧
    dimX.gridSetterRun (NDArray.mk [2] [0, 1])
      = (dimX, some PyErr.valueError) ∧
    (rawOwned dimX).gridSetterRun (NDArray.mk [2] [0, 1])
      = ({ rawOwned dimX with grid := some (NDArray.mk [2] [0, 1]) }, none) :=
  ⟨C9_grid_setter_owner_only.2.1 "x" [0, 1] true dimX (by decide),
    by decide, by decide,
    C9_grid_setter_owner_only.1 dimX (NDArray.mk [2] [0, 1]) (by decide),
    C9_grid_setter_owner_only.2.2 (rawOwned dimX) (NDArray.mk [2] [0, 1])
      (by decide)⟩

/-- C10.  The grid invariant - every incorporated dimension's bound grid
has the library's grid shape, and dimension i's grid at multi-index
(j1..jn) equals values_i[j_i] - holds after construction and is preserved
by slicing, squeeze (when it yields a Library), copy, deepcopy, and a
save/load roundtrip, each on a wellformed library. -/
theorem C10_grid_invariant :
    (∀ ds : List Dimension, ds ≠ [] → (ds.map Dimension.name).Nodup →
      (∀ d ∈ ds, d.ctorOKb = true ∧ d.structured = true) →
      ∃ L, Library.init ds = .ok L ∧ L.gridInvariant) ∧
    (∀ (L : Library) (args : List SliceArg), L.wf = true →
      validSpec L args = true →
      ∃ L2, L.getitemSlice args = .ok L2 ∧ L2.gridInvariant) ∧
    (∀ L : Library, L.wf = true →
      L.dims.filter (fun d => 1 < d.values.length) ≠ [] →
      ∃ L2, Library.squeeze L = .ok (SqueezeResult.lib L2) ∧
        L2.gridInvariant) ∧
    (∀ L : Library, L.wf = true →
      ∃ L2, L.copyV = .ok L2 ∧ L2.gridInvariant) ∧
    (∀ L : Library, L.wf = true →
      ∃ L2, L.deepcopyV = .ok L2 ∧ L2.gridInvariant) ∧
    (∀ L : Library, L.wf = true →
      ∃ L2, Library.load_from_file L.save = .ok L2 ∧ L2.gridInvariant) := by
  refine ⟨?_, ?_, ?_, ?_, ?_, ?_⟩
  · intro ds h1 h2 h3
    exact ⟨initResult ds, init_char ds h1 h2 h3,
      initResult_gridInvariant ds h2⟩
  · intro L args h hv
    obtain ⟨L2, hok, hm, ho, hg⟩ := getitemSlice_char L args h hv
    refine ⟨L2, hok,
      gridInvariant_transfer hm ho hg (initResult_gridInvariant _ ?_)⟩
    have hlen : L.dims.length = args.length := (validSpec_facts L args hv).1.symm
    have hnames : (((L.dims.zip args).map sliceDim).map Dimension.name)
        = L.dims.map Dimension.name := by
      rw [List.map_map]
      calc (L.dims.zip args).map (Dimension.name ∘ sliceDim)
          = ((L.dims.zip args).map (fun p => p.1)).map Dimension.name := by
            rw [List.map_map]
            rfl
        _ = L.dims.map Dimension.name := by rw [zip_map_fst_eq _ _ hlen]
    rw [hnames]
    exact wf_dims_nodup_names L h
  · intro L h hbig
    obtain ⟨L2, hok, hm, ho, hg⟩ := squeeze_char L h hbig
    refine ⟨L2, hok,
      gridInvariant_transfer hm ho hg (initResult_gridInvariant _ ?_)⟩
    have hnames : (((L.dims.filter (fun d => 1 < d.values.length)).map
        freeDim).map Dimension.name)
        = (L.dims.filter (fun d => 1 < d.values.length)).map Dimension.name := by
      rw [List.map_map]
      rfl
    rw [hnames]
    exact List.Nodup.sublist
      (List.Sublist.map Dimension.name (List.filter_sublist _))
      (wf_dims_nodup_names L h)
  · intro L h
    refine ⟨_, copyV_char L h,
      gridInvariant_transfer rfl rfl rfl (initResult_gridInvariant _ ?_)⟩
    have hnames : ((L.dims.map freeDim).map Dimension.name)
        = L.dims.map Dimension.name := by
      rw [List.map_map]
      rfl
    rw [hnames]
    exact wf_dims_nodup_names L h
  · intro L h
    refine ⟨_, deepcopyV_char L h,
      gridInvariant_transfer rfl rfl rfl (initResult_gridInvariant _ ?_)⟩
    have hnames : ((L.dims.map freeDim).map Dimension.name)
        = L.dims.map Dimension.name := by
      rw [List.map_map]
      rfl
    rw [hnames]
    exact wf_dims_nodup_names L h
  · intro L h
    refine ⟨setstateResult L, ?_,
      gridInvariant_transfer rfl rfl rfl
        (initResult_gridInvariant _ (freeDimsOf_hyps L h).2.1)⟩
    show Library.setstate L.getstate = _
    exact setstate_getstate L h

/-- Witness for C10: construction from `x = [0, 1]`, `y = [10, 20, 30]`,
and slice, squeeze, copy, deepcopy and save/load roundtrip on the 2x3
sample library. -/
theorem C10_grid_witness :
    (([dimX, dimY] : List Dimension) ≠ [] ∧
      (([dimX, dimY]).map Dimension.name).Nodup ∧
      (∀ d ∈ [dimX, dimY], d.ctorOKb = true ∧ d.structured = true) ∧
      sampleLib.wf = true ∧
      validSpec sampleLib [SliceArg.idx 0, SliceArg.slc none none] = true ∧
      sampleLib.dims.filter (fun d => 1 < d.values.length) ≠ []) ∧
    (∃ L, Library.init [dimX, dimY] = .ok L ∧ L.gridInvariant) ∧
    (∃ L2, sampleLib.getitemSlice [SliceArg.idx 0, SliceArg.slc none none]
      = .ok L2 ∧ L2.gridInvariant) ∧
    (∃ L2, Library.squeeze sampleLib = .ok (SqueezeResult.lib L2) ∧
      L2.gridInvariant) ∧
    (∃ L2, sampleLib.copyV = .ok L2 ∧ L2.gridInvariant) ∧
    (∃ L2, sampleLib.deepcopyV = .ok L2 ∧ L2.gridInvariant) ∧
    (∃ L2, Library.load_from_file sampleLib.save = .ok L2 ∧
      L2.gridInvariant) :=
  ⟨⟨by decide, by decide, by decide, by decide, by decide, by decide⟩,
    C10_grid_invariant.1 [dimX, dimY] (by decide) (by decide) (by decide),
    C10_grid_invariant.2.1 sampleLib [SliceArg.idx 0, SliceArg.slc none none]
      (by decide) (by decide),
    C10_grid_invariant.2.2.1 sampleLib (by decide) (by decide),
    C10_grid_invariant.2.2.2.1 sampleLib (by decide),
    C10_grid_invariant.2.2.2.2.1 sampleLib (by decide),
    C10_grid_invariant.2.2.2.2.2 sampleLib (by decide)⟩
